import Mathlib

/-!
Verification of the clingo CSP propagator (`csp/__init__.py` and `csp/util.py`).

This file gives a shallow embedding of the per-thread propagation engine:
the order-literal lattice (`VarState`), the literal map, the trail of
decision-level frames (`Level`), sum-constraint states
(`ConstraintState`), and the `State` orchestration functions
(`get_literal`, `update_literal`, `propagate`, `check`, `undo`,
`check_full`, `translate`, ...).

Modelling conventions, fixed once here:
* Integer variables are identified by their name (a `String`), solver
  literals by an `Int`, exactly as in the source.
* Python lists used as stacks (`_lower_bound`, `_upper_bound`, `_levels`)
  are stored TOP-FIRST: Python appends/pops at the end, the embedding
  conses/uncons at the head.  The bottom of a stack is hence the last
  list element.
* Python dicts keyed by variables or literals become total functions
  (`String → _`, `Int → _`); a missing key is the empty list, and
  `del litmap[lit]` is storing `[]` (the source maintains the invariant
  that present entries are nonempty).  The ordered dicts `_udiff` and
  `_ldiff` become association lists, since `check` iterates them.
* `sortedcontainers.SortedDict` (the per-variable value → literal map)
  becomes an ascending association list with ordered insertion.
* Constraints and their `ConstraintState`s are identified by a numeric
  id into the `cstates` store; `_l2c`, `_v2cs`, `_todo` and the level
  frames hold these ids where the source holds object references.
* The host solver (clingo) is out of scope; its contract is modelled at
  the boundary: `add_literal` is a fresh-literal counter, `add_watch`,
  `remove_watch`, `add_clause` and `add_weight_constraint` append to
  logs inside the state, and `add_clause` reports `false` exactly on an
  immediate conflict (a clause all of whose literals are false), per the
  host contract.  The current assignment is an `Assign` record of query
  functions.
* The unbounded `while True` loop of `check` takes an explicit fuel
  parameter; all theorems about `check` hold for every sufficient fuel.
* The `&distinct` constraint states and the statistics/timing machinery
  are outside the claims under study and are not modelled; the constraint
  store covers sum and minimize constraints.
-/

namespace Csp

/-- Constant from the source: `MAX_INT = 2**32`. -/
def MAX_INT : Int := 2 ^ 32

/-- Constant from the source: `MIN_INT = -(2**32)`. -/
def MIN_INT : Int := -(2 ^ 32)

/-- Constant from the source: `TRUE_LIT = 1`. -/
def TRUE_LIT : Int := 1

/-! ## util.py -/

/-- `util.lerp`: linear interpolation `x + (y - x) // 2` with Python's
floor division. -/
def lerp (x y : Int) : Int := x + (y - x).fdiv 2

/-- `TodoList.add`: add `x` if not contained; returns whether it was
inserted together with the new contents (insertion order kept). -/
def addTodo {α : Type} [DecidableEq α] (l : List α) (x : α) : Bool × List α :=
  if x ∈ l then (false, l) else (true, l ++ [x])

/-- `TodoList.extend`: add each element in turn. -/
def todoExtend {α : Type} [DecidableEq α] (l : List α) (xs : List α) : List α :=
  xs.foldl (fun acc x => (addTodo acc x).2) l

/-- Association-list lookup for the per-variable value → literal map. -/
def lookupVal (l : List (Int × Int)) (v : Int) : Option Int :=
  match l with
  | [] => none
  | (k, x) :: r => if k = v then some x else lookupVal r v

/-- Ordered insertion (replacing an existing key) into the ascending
value → literal association list; models `SortedDict.__setitem__`. -/
def insertVal (l : List (Int × Int)) (v lit : Int) : List (Int × Int) :=
  match l with
  | [] => [(v, lit)]
  | (k, x) :: r =>
    if v < k then (v, lit) :: (k, x) :: r
    else if k = v then (v, lit) :: r
    else (k, x) :: insertVal r v lit

/-- Lookup with integer default in an association list keyed by variable
names; models `dict.get(var, 0)` on `_udiff` / `_ldiff`. -/
def diffGet (l : List (String × Int)) (v : String) : Int :=
  match l with
  | [] => 0
  | (k, x) :: r => if k = v then x else diffGet r v

/-- `d.setdefault(v, 0); d[v] += diff` on an ordered dict modelled as an
association list: update in place, or append a fresh entry. -/
def diffBump (l : List (String × Int)) (v : String) (d : Int) : List (String × Int) :=
  match l with
  | [] => [(v, d)]
  | (k, x) :: r => if k = v then (k, x + d) :: r else (k, x) :: diffBump r v d

/-- Python's `range(a, b)` over integers, as a list. -/
def intRange (a b : Int) : List Int :=
  (List.range (b - a).toNat).map (fun k => a + Int.ofNat k)

/-! ## VarState -/

/-- `VarState`: bound stacks (top-first, see the header) and the ordered
value → order-literal map of one integer variable. -/
structure VarState where
  var : String
  upper_stack : List Int
  lower_stack : List Int
  literals : List (Int × Int)
  deriving Repr, DecidableEq

/-- Fresh `VarState`: bounds `MIN_INT`/`MAX_INT`, no literals. -/
def VarState.init (v : String) : VarState :=
  ⟨v, [MAX_INT], [MIN_INT], []⟩

/-- Current lower bound: top of the lower stack. -/
def VarState.lower_bound (vs : VarState) : Int := vs.lower_stack.headD 0

/-- Current upper bound: top of the upper stack. -/
def VarState.upper_bound (vs : VarState) : Int := vs.upper_stack.headD 0

/-- Smallest lower bound: bottom of the lower stack. -/
def VarState.min_bound (vs : VarState) : Int := vs.lower_stack.getLastD 0

/-- Largest upper bound: bottom of the upper stack. -/
def VarState.max_bound (vs : VarState) : Int := vs.upper_stack.getLastD 0

/-- `push_lower`: grow the lower stack copying the top value. -/
def VarState.push_lower (vs : VarState) : VarState :=
  { vs with lower_stack := vs.lower_bound :: vs.lower_stack }

/-- `push_upper`: grow the upper stack copying the top value. -/
def VarState.push_upper (vs : VarState) : VarState :=
  { vs with upper_stack := vs.upper_bound :: vs.upper_stack }

/-- `pop_lower`: drop the top of the lower stack. -/
def VarState.pop_lower (vs : VarState) : VarState :=
  { vs with lower_stack := vs.lower_stack.tail }

/-- `pop_upper`: drop the top of the upper stack. -/
def VarState.pop_upper (vs : VarState) : VarState :=
  { vs with upper_stack := vs.upper_stack.tail }

/-- Assign the current lower bound (top of stack). -/
def VarState.with_lower (vs : VarState) (b : Int) : VarState :=
  { vs with lower_stack := b :: vs.lower_stack.tail }

/-- Assign the current upper bound (top of stack). -/
def VarState.with_upper (vs : VarState) (b : Int) : VarState :=
  { vs with upper_stack := b :: vs.upper_stack.tail }

/-- `is_assigned`: lower and upper bound coincide. -/
def VarState.is_assigned (vs : VarState) : Bool :=
  vs.upper_bound == vs.lower_bound

/-- `has_literal`: some order literal is associated with `value`. -/
def VarState.has_literal (vs : VarState) (value : Int) : Bool :=
  (lookupVal vs.literals value).isSome

/-- `get_literal` (on `VarState`): the stored order literal of `value`. -/
def VarState.get_literal (vs : VarState) (value : Int) : Int :=
  (lookupVal vs.literals value).getD 0

/-- `set_literal`: store the order literal of `value`. -/
def VarState.set_literal (vs : VarState) (value lit : Int) : VarState :=
  { vs with literals := insertVal vs.literals value lit }

/-- `prev_value`: the greatest value below `value` carrying a literal
(`bisect_left` on the ascending key list). -/
def VarState.prev_value (vs : VarState) (value : Int) : Option Int :=
  vs.literals.foldl (fun acc kv => if kv.1 < value then some kv.1 else acc) none

/-- `succ_value`: the least value above `value` carrying a literal
(`bisect_right` on the ascending key list). -/
def VarState.succ_value (vs : VarState) (value : Int) : Option Int :=
  (vs.literals.find? (fun kv => value < kv.1)).map (·.1)

/-! ## Constraints and their states -/

/-- A sum or minimize constraint: `Σ coef·var ≤ rhs` guarded by
`literal`.  `is_minimize` distinguishes the `Minimize` class (whose rhs
is the dynamic minimize bound, whose `tagged` is true and whose
`removable` is false) from the plain `Constraint` class. -/
structure Constraint where
  literal : Int
  elements : List (Int × String)
  rhs : Int
  is_minimize : Bool
  deriving Repr, DecidableEq

/-- Class attribute `tagged` (`True` exactly for `Minimize`). -/
def Constraint.tagged (c : Constraint) : Bool := c.is_minimize

/-- Class attribute `removable` (`False` exactly for `Minimize`). -/
def Constraint.removable (c : Constraint) : Bool := !c.is_minimize

/-- `ConstraintState`: a constraint with its cached bound sums and the
`inactive_level` bookkeeping of `AbstractConstraintState`. -/
structure ConstraintState where
  constraint : Constraint
  lower_bound : Int
  upper_bound : Int
  inactive_level : Nat
  deriving Repr, DecidableEq

/-- The activation literal of the underlying constraint. -/
def ConstraintState.literal (cs : ConstraintState) : Int := cs.constraint.literal

/-- `marked_inactive`: the constraint is inactive on some level. -/
def ConstraintState.marked_inactive (cs : ConstraintState) : Bool :=
  cs.inactive_level > 0

/-- `tagged_removable`: whether the constraint may be temporarily
removed (false only for minimize constraints). -/
def ConstraintState.tagged_removable (cs : ConstraintState) : Bool :=
  cs.constraint.removable

/-- `removable(level)`: marked inactive on a level at most `level`. -/
def ConstraintState.removable (cs : ConstraintState) (level : Nat) : Bool :=
  cs.marked_inactive && cs.inactive_level ≤ level

/-- `ConstraintState.update`: add `co*diff` to the cached lower bound
(returning `True`) when it is positive, else to the upper bound
(returning `False`).  The source asserts `co*diff != 0`. -/
def ConstraintState.update (cs : ConstraintState) (co diff : Int) : Bool × ConstraintState :=
  if co * diff < 0 then (false, { cs with upper_bound := cs.upper_bound + co * diff })
  else (true, { cs with lower_bound := cs.lower_bound + co * diff })

/-- `ConstraintState.undo`: subtract `co*diff` from the bound that
`update` added it to. -/
def ConstraintState.undo (cs : ConstraintState) (co diff : Int) : ConstraintState :=
  if co * diff > 0 then { cs with lower_bound := cs.lower_bound - co * diff }
  else { cs with upper_bound := cs.upper_bound - co * diff }

/-! ## Trail frames, assignment, engine state -/

/-- One decision-level frame of the trail (`Level` in the source);
`undo_upper`/`undo_lower` are `TodoList`s of variables whose bound
stacks were pushed on this level. -/
structure Level where
  level : Nat
  inactive : List Nat
  removed_v2cs : List (String × Int × Nat)
  undo_upper : List String
  undo_lower : List String
  deriving Repr, DecidableEq

/-- `Level(level)`: a fresh, empty frame. -/
def mkLevel (level : Nat) : Level := ⟨level, [], [], [], []⟩

instance : Inhabited Level := ⟨mkLevel 0⟩

/-- The host solver's current assignment, at the boundary of the model:
`val` is `assignment.value`, `fixed` is `assignment.is_fixed`, and
`decision_level` is `assignment.decision_level`. -/
structure Assign where
  val : Int → Option Bool
  fixed : Int → Bool
  decision_level : Nat

/-- `assignment.is_true`. -/
def Assign.is_true (a : Assign) (l : Int) : Bool := a.val l == some true

/-- `assignment.is_false`. -/
def Assign.is_false (a : Assign) (l : Int) : Bool := a.val l == some false

/-- `assignment.is_fixed`. -/
def Assign.is_fixed (a : Assign) (l : Int) : Bool := a.fixed l

/-- The per-thread engine state (`State` in the source) together with
the log of calls made into the host solver (clauses, watches, weight
constraints, the fresh-literal counter). -/
structure State where
  vars : String → VarState
  var_list : List String
  litmap : Int → List (String × Int)
  levels : List Level
  v2cs : String → List (Int × Nat)
  l2c : Int → List Nat
  cstates : Nat → ConstraintState
  cstate_keys : List Nat
  todo : List Nat
  udiff : List (String × Int)
  ldiff : List (String × Int)
  facts_integrated : Nat × Nat
  lerp_last : Nat
  minimize_bound : Option Int
  minimize_level : Nat
  next_lit : Int
  clauses : List (List Int)
  watches : List Int
  removed_watches : List Int
  weights : List (Int × List (Int × Int) × Int)

/-- Pointwise update of a variable-keyed store. -/
def updVar (f : String → VarState) (v : String) (x : VarState) : String → VarState :=
  fun w => if w = v then x else f w

/-- Pointwise update of the literal map. -/
def updLitmap (f : Int → List (String × Int)) (l : Int) (x : List (String × Int)) :
    Int → List (String × Int) :=
  fun m => if m = l then x else f m

/-- Pointwise update of the constraint-state store. -/
def updCs (f : Nat → ConstraintState) (i : Nat) (x : ConstraintState) :
    Nat → ConstraintState :=
  fun j => if j = i then x else f j

/-- Pointwise update of the variable → constraints index. -/
def updV2cs (f : String → List (Int × Nat)) (v : String) (x : List (Int × Nat)) :
    String → List (Int × Nat) :=
  fun w => if w = v then x else f w

/-- `Constraint.rhs(state)`: the stored rhs for sum constraints, the
current minimize bound (possibly `None`) for minimize constraints. -/
def Constraint.rhs_in (c : Constraint) (s : State) : Option Int :=
  if c.is_minimize then s.minimize_bound else some c.rhs

/-! ## Host calls (clause creator boundary) -/

/-- `cc.add_clause(clause)`: record the clause in the host log; the host
reports `False` exactly on an immediate conflict, i.e. when every
literal of the clause is false under the current assignment.  The
step-local `tag` flag only affects clause lifetime inside the host and
is not tracked. -/
def State.add_clause (s : State) (ass : Assign) (clause : List Int) : Bool × State :=
  (!(clause.all (fun l => ass.is_false l)), { s with clauses := s.clauses ++ [clause] })

/-- `cc.remove_watch(lit)`: record a watch-removal request.  The engine
in `csp/__init__.py` never issues this call; the definition exists so
that theorems can state that fact. -/
def State.remove_watch (s : State) (lit : Int) : State :=
  { s with removed_watches := s.removed_watches ++ [lit] }

/-! ## State: order literals -/

/-- `State.get_literal(vs, value, cc)`: constant literals outside the
static bounds, the stored literal when present, otherwise a fresh host
literal (negated for `value >= 0`), stored in `vs.literals` and in
`_litmap` and watched in both polarities. -/
def State.get_literal (s : State) (v : String) (value : Int) : Int × State :=
  let vs := s.vars v
  if value < vs.min_bound then (-TRUE_LIT, s)
  else if value ≥ vs.max_bound then (TRUE_LIT, s)
  else if vs.has_literal value then (vs.get_literal value, s)
  else
    let fresh := s.next_lit
    let lit := if value ≥ 0 then -fresh else fresh
    (lit, { s with
              next_lit := fresh + 1,
              vars := updVar s.vars v (vs.set_literal value lit),
              litmap := updLitmap s.litmap lit (s.litmap lit ++ [(v, value)]),
              watches := s.watches ++ [lit, -lit] })

/-- `State._remove_literal(vs, lit, value)`: drop the pair from
`_litmap[lit]`; an entry that becomes empty is deleted (stored as `[]`
in the embedding). -/
def State.remove_literal (s : State) (v : String) (lit value : Int) : State :=
  { s with litmap := updLitmap s.litmap lit ((s.litmap lit).erase (v, value)) }

/-- `State.update_literal(vs, value, cc, truth)`: like `get_literal`,
but at decision level 0 with `truth` not `None` the value is bound to
the constant true/false literal, replacing (and unit-clausing) an
existing literal. -/
def State.update_literal (s : State) (ass : Assign) (v : String) (value : Int)
    (truth : Option Bool) : Bool × Int × State :=
  if truth = none ∨ ass.decision_level > 0 then
    (true, s.get_literal v value)
  else
    let t := truth.getD true
    let lit := if t then TRUE_LIT else -TRUE_LIT
    let vs := s.vars v
    if value < vs.min_bound ∨ value ≥ vs.max_bound then
      let r := s.get_literal v value
      if r.1 = lit then (true, lit, r.2)
      else
        let a := r.2.add_clause ass [if t then r.1 else -r.1]
        (a.1, lit, a.2)
    else if !vs.has_literal value then
      let s1 := { s with
                    vars := updVar s.vars v (vs.set_literal value lit),
                    litmap := updLitmap s.litmap lit (s.litmap lit ++ [(v, value)]) }
      (true, lit, s1)
    else
      let old := vs.get_literal value
      if old = lit then (true, lit, s)
      else
        let s1 :=
          if old ≠ -lit then
            let sa := { s with vars := updVar s.vars v (vs.set_literal value lit) }
            let sb := sa.remove_literal v old value
            { sb with litmap := updLitmap sb.litmap lit (sb.litmap lit ++ [(v, value)]) }
          else s
        let a := s1.add_clause ass [if t then old else -old]
        (a.1, lit, a.2)

/-! ## State: domain propagation -/

/-- `State._propagate_variable(vs, value, lit, sign)`: propagate the
neighbouring order literal of `lit` given by `(v, value)`, simplifying
it to a fact when `lit` is fixed. -/
def State.propagate_variable (s : State) (ass : Assign) (v : String) (value lit sign : Int) :
    Bool × State :=
  let con := sign * (s.vars v).get_literal value
  let r :=
    if ass.is_fixed lit && !ass.is_fixed con then
      let u := s.update_literal ass v value (some (decide (0 < sign)))
      (u.1, sign * u.2.1, u.2.2)
    else (true, con, s)
  if !r.1 then (false, r.2.2)
  else if !ass.is_true r.2.1 then r.2.2.add_clause ass [-lit, r.2.1]
  else (true, r.2.2)

/-- The upper-bound update step of `_update_domain`: if
`vs.upper_bound > value`, snapshot the stack on first change this level
(via the `undo_upper` todo list), assign the new bound and accumulate
the difference in `_udiff`. -/
def State.apply_upper_bound (s : State) (v : String) (value : Int) : State :=
  let vs := s.vars v
  if vs.upper_bound > value then
    let diff := value - vs.upper_bound
    let lvl := s.levels.headD default
    let a := addTodo lvl.undo_upper v
    let vs1 := if a.1 then vs.push_upper else vs
    { s with
        vars := updVar s.vars v (vs1.with_upper value),
        levels := { lvl with undo_upper := a.2 } :: s.levels.tail,
        udiff := diffBump s.udiff v diff }
  else s

/-- The lower-bound update step of `_update_domain`: if
`vs.lower_bound < value+1`, snapshot and assign symmetrically,
accumulating in `_ldiff`. -/
def State.apply_lower_bound (s : State) (v : String) (value : Int) : State :=
  let vs := s.vars v
  if vs.lower_bound < value + 1 then
    let diff := value + 1 - vs.lower_bound
    let lvl := s.levels.headD default
    let a := addTodo lvl.undo_lower v
    let vs1 := if a.1 then vs.push_lower else vs
    { s with
        vars := updVar s.vars v (vs1.with_lower (value + 1)),
        levels := { lvl with undo_lower := a.2 } :: s.levels.tail,
        ldiff := diffBump s.ldiff v diff }
  else s

/-- The first loop of `_update_domain`: update upper bounds for the
snapshot of `litmap[lit]` and make each succeeding order literal true. -/
def upperLoop (ass : Assign) (lit : Int) : List (String × Int) → State → Bool × State
  | [], s => (true, s)
  | (v, value) :: rest, s =>
    let s1 := s.apply_upper_bound v value
    match (s1.vars v).succ_value value with
    | none => upperLoop ass lit rest s1
    | some sv =>
      let r := s1.propagate_variable ass v sv lit 1
      if r.1 then upperLoop ass lit rest r.2 else (false, r.2)

/-- The second loop of `_update_domain`: update lower bounds for the
snapshot of `litmap[-lit]` and make each preceding order literal false. -/
def lowerLoop (ass : Assign) (lit : Int) : List (String × Int) → State → Bool × State
  | [], s => (true, s)
  | (v, value) :: rest, s =>
    let s1 := s.apply_lower_bound v value
    match (s1.vars v).prev_value value with
    | none => lowerLoop ass lit rest s1
    | some pv =>
      let r := s1.propagate_variable ass v pv lit (-1)
      if r.1 then lowerLoop ass lit rest r.2 else (false, r.2)

/-- `State._update_domain(cc, lit)`: adjust bounds of all variables
whose order literal `lit` (or `-lit`) became true, starting from the
fact-integration offsets when `lit` is the true literal. -/
def State.update_domain (s : State) (ass : Assign) (lit : Int) : Bool × State :=
  let r1 :=
    if s.litmap lit ≠ [] then
      let start := if lit = TRUE_LIT then s.facts_integrated.1 else 0
      upperLoop ass lit ((s.litmap lit).drop start) s
    else (true, s)
  if !r1.1 then (false, r1.2)
  else if r1.2.litmap (-lit) ≠ [] then
    let start := if lit = TRUE_LIT then r1.2.facts_integrated.2 else 0
    lowerLoop ass lit ((r1.2.litmap (-lit)).drop start) r1.2
  else (true, r1.2)

/-- `State._push_level(level)`: open a fresh frame when the host's
decision level exceeds the top frame's. -/
def State.push_level (s : State) (level : Nat) : State :=
  if (s.levels.headD default).level < level then
    { s with levels := mkLevel level :: s.levels }
  else s

/-- The literal loop of `State.propagate`: enqueue the constraints
watching each newly true literal and update the variable domains. -/
def propagateLoop (ass : Assign) : List Int → State → Bool × State
  | [], s => (true, s)
  | lit :: rest, s =>
    let s1 := { s with todo := todoExtend s.todo (s.l2c lit) }
    let r := s1.update_domain ass lit
    if r.1 then propagateLoop ass rest r.2 else (false, r.2)

/-- `State.propagate(cc, changes)`: open a frame if necessary, then
process the newly true literals. -/
def State.propagate (s : State) (ass : Assign) (changes : List Int) : Bool × State :=
  propagateLoop ass changes (s.push_level ass.decision_level)

/-! ## State: constraint propagation -/

/-- `State.mark_inactive(cs)`: mark a removable constraint inactive on
the current level and remember it in the frame. -/
def State.mark_inactive (s : State) (cid : Nat) : State :=
  let lvl := s.levels.headD default
  let cs := s.cstates cid
  if cs.tagged_removable && !cs.marked_inactive then
    { s with
        cstates := updCs s.cstates cid { cs with inactive_level := lvl.level + 1 },
        levels := { lvl with inactive := lvl.inactive ++ [cid] } :: s.levels.tail }
  else s

/-- The per-term value chosen by sum-constraint propagation:
`diff // co` for positive `co`, `-(diff // -co)` for negative `co`
(Python floor division). -/
def prop_value (co diff : Int) : Int :=
  if co > 0 then diff.fdiv co else -(diff.fdiv (-co))

/-- The per-term dividend of sum-constraint propagation:
`slack + co*bound` where `bound` is the lower bound of the variable for
positive `co` and the upper bound for negative `co`. -/
def prop_diff (co slack bound : Int) : Int := slack + co * bound

/-- The element loop of `ConstraintState._generate_reason`: one false
bound literal per term, counting unfixed literals. -/
def reasonLoop (ass : Assign) : List (Int × String) → State → Nat → List Int →
    Nat × List Int × State
  | [], s, n, lbs => (n, lbs, s)
  | (co, v) :: rest, s, n, lbs =>
    let vs := s.vars v
    let r :=
      if co > 0 then s.get_literal v (vs.lower_bound - 1)
      else
        let a := s.get_literal v vs.upper_bound
        (-a.1, a.2)
    let n1 := if !ass.is_fixed r.1 then n + 1 else n
    reasonLoop ass rest r.2 n1 (lbs ++ [r.1])

/-- `ConstraintState._generate_reason(state, cc)`: the reason clause
(bound literals plus the negated activation literal) and the number of
guessed literals in it. -/
def State.generate_reason (s : State) (ass : Assign) (cid : Nat) : Nat × List Int × State :=
  let cs := s.cstates cid
  let clit := cs.literal
  let n0 : Nat := if cs.constraint.tagged then 1 else 0
  let r := reasonLoop ass cs.constraint.elements s n0 []
  let n2 := if !ass.is_fixed clit then r.1 + 1 else r.1
  (n2, r.2.1 ++ [-clit], r.2.2)

/-- The element loop of `ConstraintState.propagate`: for each term,
force the strongest order literal keeping the slack non-negative and
emit the implication clause with the term's own reason literal swapped
for the derived literal. -/
def csPropLoop (ass : Assign) (slack : Int) (numGuess : Nat) :
    Nat → List (Int × String) → List Int → State → Bool × State
  | _, [], _, s => (true, s)
  | i, (co, v) :: rest, lbs, s =>
    let vs := s.vars v
    let adjust : Nat := if !ass.is_fixed (lbs.getD i 0) then 1 else 0
    if co > 0 then
      let truth : Option Bool := if numGuess = adjust then some true else none
      let diff := prop_diff co slack vs.lower_bound
      let value := prop_value co diff
      if value ≥ vs.upper_bound then csPropLoop ass slack numGuess (i + 1) rest lbs s
      else
        let u := s.update_literal ass v value truth
        if !u.1 then (false, u.2.2)
        else if !ass.is_true u.2.1 then
          let a := u.2.2.add_clause ass (lbs.set i u.2.1)
          if a.1 then csPropLoop ass slack numGuess (i + 1) rest lbs a.2 else (false, a.2)
        else csPropLoop ass slack numGuess (i + 1) rest lbs u.2.2
    else
      let truth : Option Bool := if numGuess > adjust then none else some false
      let diff := prop_diff co slack vs.upper_bound
      let value := prop_value co diff
      if value ≤ vs.lower_bound then csPropLoop ass slack numGuess (i + 1) rest lbs s
      else
        let u := s.update_literal ass v (value - 1) truth
        if !u.1 then (false, u.2.2)
        else
          let lit := -u.2.1
          if !ass.is_true lit then
            let a := u.2.2.add_clause ass (lbs.set i lit)
            if a.1 then csPropLoop ass slack numGuess (i + 1) rest lbs a.2 else (false, a.2)
          else csPropLoop ass slack numGuess (i + 1) rest lbs u.2.2

/-- `ConstraintState.propagate(state, cc)`: mark satisfied constraints
inactive, emit a conflict clause when the slack is negative, and
otherwise propagate each term of an active constraint. -/
def State.cs_propagate (s : State) (ass : Assign) (cid : Nat) : Bool × State :=
  let cs := s.cstates cid
  match cs.constraint.rhs_in s with
  | none => (true, s.mark_inactive cid)
  | some rhs =>
    if cs.upper_bound ≤ rhs then (true, s.mark_inactive cid)
    else
      let slack := rhs - cs.lower_bound
      if slack < 0 then
        let s1 := s.mark_inactive cid
        let g := s1.generate_reason ass cid
        g.2.2.add_clause ass g.2.1
      else if !ass.is_true cs.literal then (true, s)
      else
        let g := s.generate_reason ass cid
        csPropLoop ass slack g.1 0 cs.constraint.elements g.2.1 g.2.2

/-! ## State: check -/

/-- The compaction loop of `State._update_constraints`: update the
cached bounds of the constraints watching a variable, enqueueing those
whose lower bound grew, and detach constraints that became removable. -/
def ucLoop (v : String) (diff : Int) (level : Nat) :
    List (Int × Nat) → State → List (Int × Nat) → State × List (Int × Nat)
  | [], s, kept => (s, kept)
  | (co, cid) :: rest, s, kept =>
    let cs := s.cstates cid
    if !cs.removable level then
      let u := cs.update co diff
      let s1 := { s with cstates := updCs s.cstates cid u.2 }
      let s2 := if u.1 then { s1 with todo := (addTodo s1.todo cid).2 } else s1
      ucLoop v diff level rest s2 (kept ++ [(co, cid)])
    else
      let lvl := s.levels.headD default
      let s1 := { s with
                    levels := { lvl with removed_v2cs := lvl.removed_v2cs ++ [(v, co, cid)] }
                              :: s.levels.tail }
      ucLoop v diff level rest s1 kept

/-- `State._update_constraints(var, diff)`. -/
def State.update_constraints (s : State) (v : String) (diff : Int) : State :=
  let level := (s.levels.headD default).level
  let r := ucLoop v diff level (s.v2cs v) s []
  { r.1 with v2cs := updV2cs r.1.v2cs v r.2 }

/-- Drain a snapshot of `_udiff`/`_ldiff` into the constraint states. -/
def diffLoop : List (String × Int) → State → State
  | [], s => s
  | (v, d) :: rest, s => diffLoop rest (s.update_constraints v d)

/-- `State._num_facts`: how many order literals are associated with the
true and with the false literal. -/
def num_facts (s : State) : Nat × Nat :=
  ((s.litmap TRUE_LIT).length, (s.litmap (-TRUE_LIT)).length)

/-- The todo loop of `State.check`: propagate each queued constraint
whose activation literal is not false, marking the others inactive. -/
def todoLoop (ass : Assign) : List Nat → State → Bool × State
  | [], s => (true, s)
  | cid :: rest, s =>
    if !ass.is_false (s.cstates cid).literal then
      let r := s.cs_propagate ass cid
      if r.1 then todoLoop ass rest r.2 else (false, r.2)
    else todoLoop ass rest (s.mark_inactive cid)

/-- The `while True` loop of `State.check`, with explicit fuel: integrate
pending facts, drain the bound diffs into the constraint caches, run the
todo queue, and loop while fact integration found new facts. -/
def checkLoop (ass : Assign) : Nat → State → Bool × State
  | 0, s => (true, s)
  | Nat.succ fuel, s =>
    let r0 :=
      if s.facts_integrated ≠ num_facts s then
        let u := s.update_domain ass TRUE_LIT
        (u.1, if u.1 then { u.2 with facts_integrated := num_facts u.2 } else u.2)
      else (true, s)
    if !r0.1 then (false, r0.2)
    else
      let sa := { diffLoop r0.2.udiff r0.2 with udiff := [] }
      let sb := { diffLoop sa.ldiff sa with ldiff := [] }
      let pending := sb.todo
      let r1 := todoLoop ass pending { sb with todo := [] }
      if !r1.1 then (false, r1.2)
      else if r1.2.facts_integrated = num_facts r1.2 then (true, r1.2)
      else checkLoop ass fuel r1.2

/-- `State.check(cc)`: skip levels that were never propagated (unless
below the minimize level), else run the fact/todo loop. -/
def State.check (s : State) (ass : Assign) (fuel : Nat) : Bool × State :=
  let lvl := s.levels.headD default
  if ass.decision_level ≠ lvl.level ∧ lvl.level ≥ s.minimize_level then (true, s)
  else checkLoop ass fuel s

/-! ## State: undo -/

/-- Apply `ConstraintState.undo` along a `_v2cs` entry list. -/
def undoCsLoop (diff : Int) : List (Int × Nat) → State → State
  | [], s => s
  | (co, cid) :: rest, s =>
    undoCsLoop diff rest { s with cstates := updCs s.cstates cid ((s.cstates cid).undo co diff) }

/-- The per-variable step of `State.undo` for lower bounds: pop the
stack and compensate the constraint caches for the part of the bound
change that was already drained out of `_ldiff`. -/
def State.undo_var_lower (s : State) (v : String) : State :=
  let vs := s.vars v
  let value := vs.lower_bound
  let vs1 := vs.pop_lower
  let s1 := { s with vars := updVar s.vars v vs1 }
  let diff := value - vs1.lower_bound - diffGet s1.ldiff v
  if diff ≠ 0 then undoCsLoop diff (s1.v2cs v) s1 else s1

/-- The per-variable step of `State.undo` for upper bounds. -/
def State.undo_var_upper (s : State) (v : String) : State :=
  let vs := s.vars v
  let value := vs.upper_bound
  let vs1 := vs.pop_upper
  let s1 := { s with vars := updVar s.vars v vs1 }
  let diff := value - vs1.upper_bound - diffGet s1.udiff v
  if diff ≠ 0 then undoCsLoop diff (s1.v2cs v) s1 else s1

/-- `State.undo()`: pop the top frame, restoring bound stacks, reviving
inactive constraints, reattaching detached `_v2cs` entries, and clearing
the todo queue. -/
def State.undo (s : State) : State :=
  let lvl := s.levels.headD default
  let s1 := lvl.undo_lower.foldl State.undo_var_lower s
  let s2 := { s1 with ldiff := [] }
  let s3 := lvl.undo_upper.foldl State.undo_var_upper s2
  let s4 := { s3 with udiff := [] }
  let s5 := lvl.inactive.foldl
    (fun s cid => { s with cstates := updCs s.cstates cid
                             { s.cstates cid with inactive_level := 0 } }) s4
  let s6 := lvl.removed_v2cs.foldl
    (fun s vcc => { s with v2cs := updV2cs s.v2cs vcc.1 (s.v2cs vcc.1 ++ [(vcc.2.1, vcc.2.2)]) }) s5
  { s6 with levels := s6.levels.tail, todo := [] }

/-! ## State: check_full, get_value -/

/-- The circular index order of `check_full`: indices from `_lerp_last`
to the end, then from the start up to `_lerp_last`. -/
def circOrder (s : State) : List Nat :=
  let n := s.var_list.length
  (List.range n).drop s.lerp_last ++ (List.range n).take s.lerp_last

/-- `State.check_full(control)`: scan the variables circularly from the
last visited index; for the first unassigned one, remember its index and
allocate the order literal of the floor midpoint of its bounds.  The
result records the chosen index and midpoint (`None` when every
variable is assigned; the `CHECK_SOLUTION` debug assertions of that
branch are assertion-only and not modelled). -/
def State.check_full (s : State) : State × Option (Nat × Int) :=
  match circOrder s |>.find? (fun i => !(s.vars (s.var_list.getD i "")).is_assigned) with
  | some i =>
    let vs := s.vars (s.var_list.getD i "")
    let value := lerp vs.lower_bound vs.upper_bound
    let s1 := { s with lerp_last := i }
    ((s1.get_literal (s.var_list.getD i "") value).2, some (i, value))
  | none => (s, none)

/-- `State.get_value(var)`: the variable's current lower bound, or
`MIN_INT` for a variable without a `VarState`. -/
def State.get_value (s : State) (v : String) : Int :=
  if v ∈ s.var_list then (s.vars v).lower_bound else MIN_INT

/-! ## State: translate -/

/-- The element loop of `ConstraintState._estimate`: number of order
literals needed per term of the weight-constraint translation. -/
def estimateLoop (s : State) (slack : Int) : List (Int × String) → Int → Int
  | [], acc => acc
  | (co, v) :: rest, acc =>
    let vs := s.vars v
    if co > 0 then
      let value := prop_value co (prop_diff co slack vs.lower_bound)
      estimateLoop s slack rest (acc + (min (value + 1) vs.upper_bound - vs.lower_bound))
    else
      let value := prop_value co (prop_diff co slack vs.upper_bound)
      estimateLoop s slack rest (acc + (vs.upper_bound - max (value - 1) vs.lower_bound))

/-- `ConstraintState._estimate(state)`. -/
def State.estimate (s : State) (cid : Nat) : Int :=
  let cs := s.cstates cid
  estimateLoop s ((cs.constraint.rhs_in s).getD 0 - cs.lower_bound) cs.constraint.elements 0

/-- Allocate the order literals of one integer range, collecting weight
literals (negated with weight `w` as the caller prescribes). -/
def wlitsRange (neg : Bool) (w : Int) (v : String) :
    List Int → State → List (Int × Int) → List (Int × Int) × State
  | [], s, acc => (acc, s)
  | i :: rest, s, acc =>
    let r := s.get_literal v i
    wlitsRange neg w v rest r.2 (acc ++ [(if neg then -r.1 else r.1, w)])

/-- The element loop of `ConstraintState.translate` building the weight
literals. -/
def wlitsLoop (slack : Int) : List (Int × String) → State → List (Int × Int) →
    List (Int × Int) × State
  | [], s, acc => (acc, s)
  | (co, v) :: rest, s, acc =>
    let vs := s.vars v
    if co > 0 then
      let value := prop_value co (prop_diff co slack vs.lower_bound)
      let r :=
        wlitsRange true co v (intRange vs.lower_bound (min (value + 1) vs.upper_bound)) s acc
      wlitsLoop slack rest r.2 r.1
    else
      let value := prop_value co (prop_diff co slack vs.upper_bound)
      let r :=
        wlitsRange false (-co) v (intRange (max (value - 1) vs.lower_bound) vs.upper_bound) s acc
      wlitsLoop slack rest r.2 r.1

/-- `State.remove_constraint(constraint)`: detach the constraint from
`_v2cs`, delete its state, and drop it from the current frame's inactive
list if present. -/
def State.remove_constraint (s : State) (cid : Nat) : State :=
  let elements := (s.cstates cid).constraint.elements
  let s1 := elements.foldl
    (fun s el => { s with v2cs := updV2cs s.v2cs el.2 ((s.v2cs el.2).erase (el.1, cid)) }) s
  let s2 := { s1 with cstate_keys := s1.cstate_keys.erase cid }
  let lvl := s2.levels.headD default
  if lvl.inactive.contains cid then
    { s2 with levels := { lvl with inactive := lvl.inactive.erase cid } :: s2.levels.tail }
  else s2

/-- `ConstraintState.translate(cc, state)`: skip tagged constraints,
remove satisfied or deactivated ones, and replace a small enough
constraint by one host weight constraint with bound `slack`.  Returns
the host success flag and whether the constraint state was removed. -/
def State.translate (s : State) (ass : Assign) (cid : Nat) : Bool × Bool × State :=
  let cs := s.cstates cid
  if cs.constraint.tagged then (true, false, s)
  else
    let rhs := (cs.constraint.rhs_in s).getD 0
    if ass.is_false cs.literal || cs.upper_bound ≤ rhs then
      (true, true, s.remove_constraint cid)
    else
      let slack := rhs - cs.lower_bound
      if s.estimate cid < 1000 then
        let w := wlitsLoop slack cs.constraint.elements s []
        let r :=
          if ass.is_true cs.literal then (cs.literal, w.2)
          else
            let fresh := w.2.next_lit
            let sa := { w.2 with next_lit := fresh + 1 }
            (fresh, (sa.add_clause ass [-cs.literal, fresh]).2)
        let s3 := { r.2 with weights := r.2.weights ++ [(r.1, w.1, slack)] }
        (true, true, s3.remove_constraint cid)
      else (true, false, s)

/-! ## Concrete states for witnesses -/

/-- A minimal engine state: no variables, constraints or literals, one
root level frame, fresh literals starting at 2. -/
def emptyState : State where
  vars := fun v => VarState.init v
  var_list := []
  litmap := fun _ => []
  levels := [mkLevel 0]
  v2cs := fun _ => []
  l2c := fun _ => []
  cstates := fun _ => ⟨⟨1, [], 0, false⟩, 0, 0, 0⟩
  cstate_keys := []
  todo := []
  udiff := []
  ldiff := []
  facts_integrated := (0, 0)
  lerp_last := 0
  minimize_bound := none
  minimize_level := 0
  next_lit := 2
  clauses := []
  watches := []
  removed_watches := []
  weights := []

/-- State whose litmap holds a single pair for literal 4. -/
def w8state : State :=
  { emptyState with litmap := fun l => if l = 4 then [("x", 7)] else [] }

/-- Concrete state for the C7 witness: `x` assigned to 1, `y` in
`[0, 5]`, scan starting at index 0. -/
def w7state : State :=
  { emptyState with
      var_list := ["x", "y"],
      vars := fun v =>
        if v = "x" then ⟨"x", [1, MAX_INT], [1, MIN_INT], []⟩
        else if v = "y" then ⟨"y", [5, MAX_INT], [0, MIN_INT], []⟩
        else VarState.init v }

/-- Concrete state for the C4 counterexample: the lower bound of `x`
was raised from 0 to 1 on level 1, whose diff is still pending in
`_ldiff` (no `check` ran yet); constraint 0 watches `x`. -/
def w4state : State :=
  { emptyState with
      vars := fun v =>
        if v = "x" then ⟨"x", [MAX_INT], [1, 0], [(1, -2)]⟩ else VarState.init v,
      litmap := fun l => if l = -2 then [("x", 1)] else [],
      levels := [⟨1, [], [], [], ["x"]⟩, mkLevel 0],
      v2cs := fun v => if v = "x" then [(1, 0)] else [],
      cstates := fun _ => ⟨⟨5, [(1, "x")], 0, false⟩, 0, 0, 0⟩,
      cstate_keys := [0],
      ldiff := [("x", 1)] }

/-- Host assignment for the C4 counterexample: literal 2 just became
true on decision level 2. -/
def w4assign : Assign :=
  ⟨fun l => if l = 2 then some true else if l = -2 then some false else none,
   fun _ => false, 2⟩

/-- Concrete state for the C6 witness: one constraint `1*x ≤ 2` with
`x ∈ [0, 5]`, activation literal 3 unassigned. -/
def w6state : State :=
  { emptyState with
      vars := fun v =>
        if v = "x" then ⟨"x", [5, MAX_INT], [0, MIN_INT], []⟩ else VarState.init v,
      var_list := ["x"],
      v2cs := fun v => if v = "x" then [(1, 0)] else [],
      cstates := fun _ => ⟨⟨3, [(1, "x")], 2, false⟩, 0, 5, 0⟩,
      cstate_keys := [0] }

/-- Host assignment for the C6 witness: nothing assigned, level 0. -/
def w6assign : Assign := ⟨fun _ => none, fun _ => false, 0⟩

/-- The order literal for `v ≤ value` can be read off without touching
the state: the value is outside the static bounds (constant literal) or
a literal is already stored.  This is the situation `_generate_reason`
relies on (the source comments note that such literals always exist for
`lower_bound - 1` and `upper_bound`). -/
def hasOrderLit (s : State) (v : String) (value : Int) : Prop :=
  value < (s.vars v).min_bound ∨ value ≥ (s.vars v).max_bound ∨
    (s.vars v).has_literal value = true

instance (s : State) (v : String) (value : Int) : Decidable (hasOrderLit s v value) := by
  unfold hasOrderLit
  infer_instance

/-- The reason literal `_generate_reason` produces for one term: the
(false) literal witnessing the variable's lower bound for a positive
coefficient, the negated (true) literal witnessing its upper bound for
a negative one. -/
def reason_lit (s : State) (el : Int × String) : Int :=
  if el.1 > 0 then (s.get_literal el.2 ((s.vars el.2).lower_bound - 1)).1
  else -((s.get_literal el.2 (s.vars el.2).upper_bound).1)

/-- Concrete state for the C2 counterexample: the empty-sum constraint
`0 ≤ -1` (cached lower bound 0 exceeds rhs −1) is enqueued; its
activation literal 5 is unassigned (not false). -/
def w2state : State :=
  { emptyState with
      cstates := fun _ => ⟨⟨5, [], -1, false⟩, 0, 0, 0⟩,
      cstate_keys := [0],
      todo := [0] }

/-- Host assignment for the C2 counterexample: nothing assigned. -/
def w2assign : Assign := ⟨fun _ => none, fun _ => false, 0⟩

/-- Concrete state for the C2 witness: as `w2state` but the activation
literal 5 is true. -/
def w2wstate : State :=
  { emptyState with
      cstates := fun _ => ⟨⟨5, [], -1, false⟩, 0, 0, 0⟩,
      cstate_keys := [0],
      todo := [0] }

/-- Host assignment for the C2 witness: literal 5 true. -/
def w2wassign : Assign :=
  ⟨fun l => if l = 5 then some true else if l = -5 then some false else none,
   fun _ => false, 0⟩

/-! ## Invariants used by the theorems -/

/-- Two states agree on every component that bound propagation must not
disturb: the bound stacks, the trail frames, the pending diffs, the
constraint-state caches and the variable → constraint index.  The
order-literal bookkeeping (`literals`, `litmap`, host logs) may differ. -/
def SameSkel (s t : State) : Prop :=
  (∀ v, (t.vars v).lower_stack = (s.vars v).lower_stack) ∧
  (∀ v, (t.vars v).upper_stack = (s.vars v).upper_stack) ∧
  t.levels = s.levels ∧ t.ldiff = s.ldiff ∧ t.udiff = s.udiff ∧
  (∀ i, t.cstates i = s.cstates i) ∧ (∀ v, t.v2cs v = s.v2cs v)

/-- All bound stacks are monotone: upper stacks never grow and lower
stacks never shrink from bottom to top (stacks are stored top-first, so
the list is ascending for upper bounds and descending for lower
bounds). -/
def StacksMono (s : State) : Prop :=
  ∀ v, List.Chain' (· ≤ ·) (s.vars v).upper_stack ∧
       List.Chain' (· ≥ ·) (s.vars v).lower_stack

/-- Mid-`propagate` relation between the pre-call state `S0` and the
current state `s`, on decision level `dl`: a single fresh frame has been
pushed, the caches and `_v2cs` are untouched, and for every variable
either nothing happened, or its stack was pushed exactly once (it is in
the frame's undo set) and the accumulated diff records the whole bound
change. -/
def PropInv (S0 : State) (dl : Nat) (s : State) : Prop :=
  ∃ F : Level,
    s.levels = F :: S0.levels ∧ F.level = dl ∧ F.inactive = [] ∧ F.removed_v2cs = [] ∧
    F.undo_lower.Nodup ∧ F.undo_upper.Nodup ∧
    (∀ i, s.cstates i = S0.cstates i) ∧ (∀ v, s.v2cs v = S0.v2cs v) ∧
    (∀ v, v ∈ F.undo_lower →
       (s.vars v).lower_stack.tail = (S0.vars v).lower_stack ∧
       diffGet s.ldiff v = (s.vars v).lower_bound - (S0.vars v).lower_bound) ∧
    (∀ v, v ∉ F.undo_lower →
       (s.vars v).lower_stack = (S0.vars v).lower_stack ∧ diffGet s.ldiff v = 0) ∧
    (∀ v, v ∈ F.undo_upper →
       (s.vars v).upper_stack.tail = (S0.vars v).upper_stack ∧
       diffGet s.udiff v = (s.vars v).upper_bound - (S0.vars v).upper_bound) ∧
    (∀ v, v ∉ F.undo_upper →
       (s.vars v).upper_stack = (S0.vars v).upper_stack ∧ diffGet s.udiff v = 0)

/-! ## C1: the propagation value of a sum-constraint term -/

/-- C1: for every term with coefficient `co ≠ 0`, the value chosen by
`ConstraintState.propagate` (`diff // co` for `co > 0`, `-(diff // -co)`
for `co < 0`, where `diff = slack + co·bound`) satisfies
`0 ≤ diff − co·value < |co|`; for `co > 0` it is the floor of
`diff / co`. -/
theorem c1_prop_value (co slack bound : Int) (hco : co ≠ 0) :
    0 ≤ prop_diff co slack bound - co * prop_value co (prop_diff co slack bound) ∧
    prop_diff co slack bound - co * prop_value co (prop_diff co slack bound) < |co| ∧
    (0 < co → prop_value co (prop_diff co slack bound) =
      ⌊(prop_diff co slack bound : ℚ) / (co : ℚ)⌋) := by
  set d := prop_diff co slack bound with hd
  rcases lt_or_gt_of_ne hco with hneg | hpos
  · have hval : prop_value co d = -(d / (-co)) := by
      rw [prop_value, if_neg (by omega), Int.fdiv_eq_ediv _ (by omega)]
    have hmod : d - co * prop_value co d = d % (-co) := by
      rw [hval, Int.emod_def]; ring
    refine ⟨?_, ?_, fun h => absurd h (by omega)⟩
    · rw [hmod]; exact Int.emod_nonneg _ (by omega)
    · rw [hmod, abs_of_neg hneg]; exact Int.emod_lt_of_pos _ (by omega)
  · have hval : prop_value co d = d / co := by
      rw [prop_value, if_pos hpos, Int.fdiv_eq_ediv _ hpos.le]
    have hmod : d - co * prop_value co d = d % co := by
      rw [hval, Int.emod_def]
    refine ⟨?_, ?_, fun _ => ?_⟩
    · rw [hmod]; exact Int.emod_nonneg _ hco
    · rw [hmod, abs_of_pos hpos]; exact Int.emod_lt_of_pos _ hpos
    · have htn : ((co.toNat : ℤ)) = co := Int.toNat_of_nonneg hpos.le
      have hfl := Rat.floor_intCast_div_natCast d co.toNat
      have hcast : ((co.toNat : ℕ) : ℚ) = (co : ℚ) := by
        exact_mod_cast congrArg (fun z : ℤ => (z : ℚ)) htn
      rw [hcast, htn] at hfl
      rw [hval, hfl]

/-- Witness for C1 at `co = 3`, `slack = 5`, `bound = 2`. -/
theorem c1_witness :
    (3 : Int) ≠ 0 ∧
    (0 ≤ prop_diff 3 5 2 - 3 * prop_value 3 (prop_diff 3 5 2) ∧
     prop_diff 3 5 2 - 3 * prop_value 3 (prop_diff 3 5 2) < |(3 : Int)| ∧
     ((0 : Int) < 3 → prop_value 3 (prop_diff 3 5 2) =
       ⌊(prop_diff 3 5 2 : ℚ) / ((3 : Int) : ℚ)⌋)) :=
  ⟨by decide, c1_prop_value 3 5 2 (by decide)⟩

/-! ## C9: update/undo round trip on constraint-state caches -/

/-- C9: for `co*diff ≠ 0`, `update co diff` followed by `undo co diff`
leaves both cached bounds unchanged; `update` adds `co*diff` to the
lower bound and returns `True` exactly when `co*diff > 0`, and otherwise
adds it to the upper bound and returns `False`. -/
theorem c9_update_undo (cs : ConstraintState) (co diff : Int) (h : co * diff ≠ 0) :
    ((cs.update co diff).2.undo co diff) = cs ∧
    ((cs.update co diff).1 = true ↔ 0 < co * diff) ∧
    (0 < co * diff →
       (cs.update co diff).2.lower_bound = cs.lower_bound + co * diff ∧
       (cs.update co diff).2.upper_bound = cs.upper_bound) ∧
    (co * diff < 0 →
       (cs.update co diff).2.upper_bound = cs.upper_bound + co * diff ∧
       (cs.update co diff).2.lower_bound = cs.lower_bound) := by
  obtain ⟨con, lb, ub, il⟩ := cs
  unfold ConstraintState.update ConstraintState.undo
  rcases lt_trichotomy (co * diff) 0 with hlt | heq | hgt
  · rw [if_pos hlt, if_neg (show ¬ co * diff > 0 by omega)]
    exact ⟨by rw [show ub + co * diff - co * diff = ub from by ring],
           by simp; omega,
           fun hh => absurd hh (by omega),
           fun _ => ⟨rfl, rfl⟩⟩
  · exact absurd heq h
  · rw [if_neg (show ¬ co * diff < 0 by omega), if_pos hgt]
    exact ⟨by rw [show lb + co * diff - co * diff = lb from by ring],
           by simp [hgt],
           fun _ => ⟨rfl, rfl⟩,
           fun hh => absurd hh (by omega)⟩

/-- Witness for C9 at a concrete constraint state and `co*diff = -6`. -/
theorem c9_witness :
    ((2 : Int) * (-3) ≠ 0) ∧
    ((ConstraintState.update ⟨⟨1, [], 0, false⟩, 4, 9, 0⟩ 2 (-3)).2.undo 2 (-3)
        = ⟨⟨1, [], 0, false⟩, 4, 9, 0⟩ ∧
     ((ConstraintState.update ⟨⟨1, [], 0, false⟩, 4, 9, 0⟩ 2 (-3)).1 = true ↔
        0 < (2 : Int) * (-3)) ∧
     (0 < (2 : Int) * (-3) →
        (ConstraintState.update ⟨⟨1, [], 0, false⟩, 4, 9, 0⟩ 2 (-3)).2.lower_bound = 4 + 2 * (-3) ∧
        (ConstraintState.update ⟨⟨1, [], 0, false⟩, 4, 9, 0⟩ 2 (-3)).2.upper_bound = 9) ∧
     ((2 : Int) * (-3) < 0 →
        (ConstraintState.update ⟨⟨1, [], 0, false⟩, 4, 9, 0⟩ 2 (-3)).2.upper_bound = 9 + 2 * (-3) ∧
        (ConstraintState.update ⟨⟨1, [], 0, false⟩, 4, 9, 0⟩ 2 (-3)).2.lower_bound = 4)) :=
  ⟨by decide, c9_update_undo ⟨⟨1, [], 0, false⟩, 4, 9, 0⟩ 2 (-3) (by decide)⟩

/-! ## C10: get_value -/

/-- C10: `State.get_value(var)` returns the current lower bound of the
variable's `VarState` when the variable is known and the constant
`MIN_INT = -(2^32)` otherwise; it is total (never raises). -/
theorem c10_get_value (s : State) (v : String) :
    (v ∈ s.var_list → s.get_value v = (s.vars v).lower_bound) ∧
    (v ∉ s.var_list → s.get_value v = MIN_INT) ∧ MIN_INT = -(2 ^ 32) := by
  refine ⟨fun h => ?_, fun h => ?_, rfl⟩ <;> simp [State.get_value, h]

/-- Witness for C10: a known and an unknown variable. -/
theorem c10_witness :
    ("x" ∈ ({ emptyState with var_list := ["x"] } : State).var_list ∧
     State.get_value { emptyState with var_list := ["x"] } "x" =
       (({ emptyState with var_list := ["x"] } : State).vars "x").lower_bound) ∧
    ("y" ∉ ({ emptyState with var_list := ["x"] } : State).var_list ∧
     State.get_value { emptyState with var_list := ["x"] } "y" = MIN_INT) :=
  ⟨⟨by decide, (c10_get_value { emptyState with var_list := ["x"] } "x").1 (by decide)⟩,
   ⟨by decide, (c10_get_value { emptyState with var_list := ["x"] } "y").2.1 (by decide)⟩⟩

/-! ## C8: removal of the last litmap pair -/

/-- C8 counterexample: removing the last `(VarState, value)` pair of
literal 4 deletes the litmap entry, but the engine does NOT ask the host
to drop the watches: no `remove_watch` request is recorded (the call
does not exist in `csp/__init__.py`), refuting the claimed
`remove_watch` for both polarities. -/
theorem c8_counterexample :
    (w8state.remove_literal "x" 4 7).litmap 4 = [] ∧
    (w8state.remove_literal "x" 4 7).removed_watches = [] ∧
    (w8state.remove_literal "x" 4 7).watches = w8state.watches := by
  refine ⟨?_, rfl, rfl⟩
  simp [w8state, State.remove_literal, updLitmap, emptyState, List.erase]

/-- C8 (amended): when the last pair referring to a literal is removed,
`_remove_literal` deletes the litmap entry (forgetting the literal), but
issues no host call at all — in particular no `remove_watch` — and the
watch state is left untouched. -/
theorem c8_remove_literal (s : State) (v : String) (lit value : Int) :
    (s.remove_literal v lit value).removed_watches = s.removed_watches ∧
    (s.remove_literal v lit value).watches = s.watches ∧
    (s.remove_literal v lit value).clauses = s.clauses ∧
    ((s.litmap lit).erase (v, value) = [] →
      (s.remove_literal v lit value).litmap lit = []) := by
  refine ⟨rfl, rfl, rfl, fun h => ?_⟩
  simp [State.remove_literal, updLitmap, h]

/-- Witness for C8 (amended) at the concrete single-pair state. -/
theorem c8_witness :
    ((w8state.litmap 4).erase ("x", 7) = [] ∧
     (w8state.remove_literal "x" 4 7).litmap 4 = []) ∧
    (w8state.remove_literal "x" 4 7).removed_watches = w8state.removed_watches :=
  ⟨⟨by decide, (c8_remove_literal w8state "x" 4 7).2.2.2 (by decide)⟩,
   (c8_remove_literal w8state "x" 4 7).1⟩

/-! ## C5: State.get_literal -/

/-- C5: `State.get_literal` returns the constant false literal below
`min_bound`, the constant true literal from `max_bound` on, the stored
order literal when one exists, and otherwise allocates a fresh host
literal — negated exactly when `value ≥ 0` — records it in
`vs.literals` and in `_litmap`, and watches both polarities. -/
theorem c5_get_literal (s : State) (v : String) (value : Int) :
    (value < (s.vars v).min_bound → s.get_literal v value = (-TRUE_LIT, s)) ∧
    (¬ value < (s.vars v).min_bound → value ≥ (s.vars v).max_bound →
       s.get_literal v value = (TRUE_LIT, s)) ∧
    (¬ value < (s.vars v).min_bound → ¬ value ≥ (s.vars v).max_bound →
       (s.vars v).has_literal value = true →
       s.get_literal v value = ((s.vars v).get_literal value, s)) ∧
    (¬ value < (s.vars v).min_bound → ¬ value ≥ (s.vars v).max_bound →
       (s.vars v).has_literal value = false →
       (s.get_literal v value).1 = (if value ≥ 0 then -s.next_lit else s.next_lit) ∧
       ((s.get_literal v value).2.vars v).literals =
         insertVal (s.vars v).literals value (s.get_literal v value).1 ∧
       (s.get_literal v value).2.litmap (s.get_literal v value).1 =
         s.litmap (s.get_literal v value).1 ++ [(v, value)] ∧
       (s.get_literal v value).2.watches =
         s.watches ++ [(s.get_literal v value).1, -(s.get_literal v value).1] ∧
       (s.get_literal v value).2.next_lit = s.next_lit + 1) := by
  refine ⟨fun h1 => ?_, fun h1 h2 => ?_, fun h1 h2 h3 => ?_, fun h1 h2 h3 => ?_⟩
  · simp [State.get_literal, h1]
  · simp [State.get_literal, h1, h2]
  · simp [State.get_literal, h1, h2, h3]
  · simp [State.get_literal, h1, h2, h3, updVar, updLitmap, VarState.set_literal]

/-- Witness for C5: fresh allocation at value 0 for a variable with the
static bounds (literal negated, stored, watched). -/
theorem c5_witness :
    (¬ (0 : Int) < (emptyState.vars "x").min_bound ∧
     ¬ (0 : Int) ≥ (emptyState.vars "x").max_bound ∧
     (emptyState.vars "x").has_literal 0 = false) ∧
    ((emptyState.get_literal "x" 0).1 = (if (0 : Int) ≥ 0 then -emptyState.next_lit
                                         else emptyState.next_lit) ∧
     ((emptyState.get_literal "x" 0).2.vars "x").literals =
       insertVal (emptyState.vars "x").literals 0 (emptyState.get_literal "x" 0).1 ∧
     (emptyState.get_literal "x" 0).2.litmap (emptyState.get_literal "x" 0).1 =
       emptyState.litmap (emptyState.get_literal "x" 0).1 ++ [("x", 0)] ∧
     (emptyState.get_literal "x" 0).2.watches =
       emptyState.watches ++ [(emptyState.get_literal "x" 0).1,
                              -(emptyState.get_literal "x" 0).1] ∧
     (emptyState.get_literal "x" 0).2.next_lit = emptyState.next_lit + 1) :=
  ⟨⟨by decide, by decide, by decide⟩,
   (c5_get_literal emptyState "x" 0).2.2.2 (by decide) (by decide) (by decide)⟩

/-! ## C7: check_full and lerp -/

/-- A successful `find?` splits its list into a failing prefix, the hit,
and a suffix. -/
theorem find?_split {α : Type} (p : α → Bool) :
    ∀ (l : List α) (a : α), l.find? p = some a →
      ∃ l1 l2, l = l1 ++ a :: l2 ∧ (∀ x ∈ l1, p x = false) ∧ p a = true := by
  intro l
  induction l with
  | nil => intro a h; simp [List.find?] at h
  | cons x xs ih =>
    intro a h
    by_cases hp : p x = true
    · rw [List.find?_cons_of_pos _ hp] at h
      obtain rfl : x = a := by simpa using h
      exact ⟨[], xs, by simp, by simp, hp⟩
    · have hp' : p x = false := by simpa using hp
      rw [List.find?_cons_of_neg _ (by simp [hp'])] at h
      obtain ⟨l1, l2, hl, h1, h2⟩ := ih a h
      refine ⟨x :: l1, l2, by simp [hl], ?_, h2⟩
      intro z hz
      rcases List.mem_cons.1 hz with rfl | hz
      · exact hp'
      · exact h1 z hz

/-- Members of the circular scan order are indices into the variable
list. -/
theorem circ_mem {s : State} {i : Nat} (h : i ∈ circOrder s) : i < s.var_list.length := by
  unfold circOrder at h
  rcases List.mem_append.1 h with h | h
  · exact List.mem_range.1 (List.mem_of_mem_drop h)
  · exact List.mem_range.1 (List.mem_of_mem_take h)

/-- `lerp` is floor division of the sum by two. -/
theorem lerp_fdiv (x y : Int) : lerp x y = (x + y).fdiv 2 := by
  unfold lerp
  rw [Int.fdiv_eq_ediv _ (by norm_num), Int.fdiv_eq_ediv _ (by norm_num)]
  omega

/-- C7: `check_full` scans the variable indices circularly from
`_lerp_last`; when it returns a hit `(i, val)`, variable `i` is the
first unassigned one in that order, its bounds satisfy `lb < ub`, `val`
is `lerp lb ub`, and the order literal for `val` is allocated; when it
returns none, every variable is assigned.  For all integers `x ≤ y`,
`lerp x y = x + (y - x)//2` is the floor of `(x+y)/2`. -/
theorem c7_check_full (s : State) (x y : Int) (_hxy : x ≤ y)
    (hb : ∀ v ∈ s.var_list, (s.vars v).lower_bound ≤ (s.vars v).upper_bound) :
    (lerp x y = (x + y).fdiv 2 ∧ lerp x y = ⌊((x : ℚ) + (y : ℚ)) / 2⌋) ∧
    (∀ i val, (s.check_full).2 = some (i, val) →
       (s.vars (s.var_list.getD i "")).lower_bound <
         (s.vars (s.var_list.getD i "")).upper_bound ∧
       val = lerp (s.vars (s.var_list.getD i "")).lower_bound
                  (s.vars (s.var_list.getD i "")).upper_bound ∧
       (s.check_full).1 =
         (({ s with lerp_last := i } : State).get_literal (s.var_list.getD i "") val).2 ∧
       ∃ pre post, circOrder s = pre ++ i :: post ∧
         ∀ j ∈ pre, (s.vars (s.var_list.getD j "")).is_assigned = true) ∧
    ((s.check_full).2 = none →
       ∀ j ∈ circOrder s, (s.vars (s.var_list.getD j "")).is_assigned = true) := by
  refine ⟨⟨lerp_fdiv x y, ?_⟩, ?_, ?_⟩
  · rw [lerp_fdiv, Int.fdiv_eq_ediv _ (by norm_num)]
    have hfl := Rat.floor_intCast_div_natCast (x + y) 2
    push_cast at hfl
    exact hfl.symm
  · intro i val h
    unfold State.check_full at h
    cases hf : (circOrder s).find?
        (fun i => !(s.vars (s.var_list.getD i "")).is_assigned) with
    | none => rw [hf] at h; simp at h
    | some j =>
      rw [hf] at h
      simp only [Option.some.injEq, Prod.mk.injEq] at h
      obtain ⟨hji, hval⟩ := h
      subst hji
      obtain ⟨pre, post, hsplit, hpre, hpj⟩ := find?_split _ _ _ hf
      have hjmem : j ∈ circOrder s := by rw [hsplit]; simp
      have hjlt := circ_mem hjmem
      have hvmem : s.var_list.getD j "" ∈ s.var_list := by
        rw [List.getD_eq_getElem s.var_list "" hjlt]
        exact List.getElem_mem hjlt
      have hne : (s.vars (s.var_list.getD j "")).is_assigned = false := by
        simpa using hpj
      have hlt : (s.vars (s.var_list.getD j "")).lower_bound <
          (s.vars (s.var_list.getD j "")).upper_bound := by
        have hle := hb _ hvmem
        have : ¬ (s.vars (s.var_list.getD j "")).upper_bound =
            (s.vars (s.var_list.getD j "")).lower_bound := by
          simpa [VarState.is_assigned] using hne
        omega
      refine ⟨hlt, hval.symm, ?_, pre, post, hsplit, ?_⟩
      · unfold State.check_full
        rw [hf, ← hval]
      · intro k hk
        have := hpre k hk
        simpa using this
  · intro h j hj
    unfold State.check_full at h
    cases hf : (circOrder s).find?
        (fun i => !(s.vars (s.var_list.getD i "")).is_assigned) with
    | some j' => rw [hf] at h; simp at h
    | none =>
      have := List.find?_eq_none.1 hf j hj
      simpa using this

/-- Witness for C7: the scan skips the assigned `x` and picks `y` with
midpoint `lerp 0 5 = 2`. -/
theorem c7_witness :
    ((0 : Int) ≤ 5 ∧ ∀ v ∈ w7state.var_list,
        (w7state.vars v).lower_bound ≤ (w7state.vars v).upper_bound) ∧
    ((w7state.check_full).2 = some (1, 2) ∧
     (w7state.vars (w7state.var_list.getD 1 "")).lower_bound <
       (w7state.vars (w7state.var_list.getD 1 "")).upper_bound ∧
     (2 : Int) = lerp (w7state.vars (w7state.var_list.getD 1 "")).lower_bound
                      (w7state.vars (w7state.var_list.getD 1 "")).upper_bound) := by
  have hb : ∀ v ∈ w7state.var_list,
      (w7state.vars v).lower_bound ≤ (w7state.vars v).upper_bound := by decide
  have hmain := ((c7_check_full w7state 0 5 (by decide) hb).2.1 1 2 (by decide))
  exact ⟨⟨by decide, hb⟩, by decide, hmain.1, hmain.2.1⟩

/-! ## Skeleton preservation: order-literal bookkeeping never touches
bound stacks, frames, diffs, caches or the constraint index -/

@[simp] theorem set_literal_lower_stack (vs : VarState) (k l : Int) :
    (vs.set_literal k l).lower_stack = vs.lower_stack := rfl

@[simp] theorem set_literal_upper_stack (vs : VarState) (k l : Int) :
    (vs.set_literal k l).upper_stack = vs.upper_stack := rfl

theorem sameSkel_refl (s : State) : SameSkel s s :=
  ⟨fun _ => rfl, fun _ => rfl, rfl, rfl, rfl, fun _ => rfl, fun _ => rfl⟩

theorem SameSkel.trans {s t u : State} (h1 : SameSkel s t) (h2 : SameSkel t u) :
    SameSkel s u := by
  obtain ⟨a1, b1, c1, d1, e1, f1, g1⟩ := h1
  obtain ⟨a2, b2, c2, d2, e2, f2, g2⟩ := h2
  exact ⟨fun v => (a2 v).trans (a1 v), fun v => (b2 v).trans (b1 v), c2.trans c1,
    d2.trans d1, e2.trans e1, fun i => (f2 i).trans (f1 i), fun v => (g2 v).trans (g1 v)⟩

theorem sameSkel_add_clause (s : State) (ass : Assign) (c : List Int) :
    SameSkel s (s.add_clause ass c).2 :=
  ⟨fun _ => rfl, fun _ => rfl, rfl, rfl, rfl, fun _ => rfl, fun _ => rfl⟩

theorem sameSkel_get_literal (s : State) (v : String) (value : Int) :
    SameSkel s (s.get_literal v value).2 := by
  unfold State.get_literal
  dsimp only
  split
  · exact sameSkel_refl s
  split
  · exact sameSkel_refl s
  split
  · exact sameSkel_refl s
  refine ⟨?_, ?_, rfl, rfl, rfl, fun _ => rfl, fun _ => rfl⟩ <;>
    · intro w
      dsimp only
      simp only [updVar]
      split
      · next hw => subst hw; simp
      · rfl

theorem sameSkel_remove_literal (s : State) (v : String) (lit value : Int) :
    SameSkel s (s.remove_literal v lit value) :=
  ⟨fun _ => rfl, fun _ => rfl, rfl, rfl, rfl, fun _ => rfl, fun _ => rfl⟩

theorem sameSkel_set_and_remove (s : State) (v : String) (value lit old : Int) :
    SameSkel s
      (let sa := { s with vars := updVar s.vars v ((s.vars v).set_literal value lit) }
       let sb := sa.remove_literal v old value
       { sb with litmap := updLitmap sb.litmap lit (sb.litmap lit ++ [(v, value)]) }) := by
  refine ⟨?_, ?_, rfl, rfl, rfl, fun _ => rfl, fun _ => rfl⟩ <;>
    · intro w
      dsimp only [State.remove_literal]
      simp only [updVar]
      split
      · next hw => subst hw; simp
      · rfl

theorem sameSkel_update_literal (s : State) (ass : Assign) (v : String) (value : Int)
    (truth : Option Bool) : SameSkel s (s.update_literal ass v value truth).2.2 := by
  unfold State.update_literal
  dsimp only
  repeat' split
  all_goals first
    | exact sameSkel_refl s
    | exact sameSkel_get_literal s v value
    | exact (sameSkel_get_literal s v value).trans (sameSkel_add_clause _ ass _)
    | exact (sameSkel_refl s).trans (sameSkel_add_clause _ ass _)
    | exact (sameSkel_set_and_remove s v value _ _).trans (sameSkel_add_clause _ ass _)
    | (refine ⟨?_, ?_, rfl, rfl, rfl, fun _ => rfl, fun _ => rfl⟩ <;>
        · intro w
          dsimp only
          simp only [updVar]
          split
          · next hw => subst hw; simp
          · rfl)

theorem sameSkel_propagate_variable (s : State) (ass : Assign) (v : String)
    (value lit sign : Int) : SameSkel s (s.propagate_variable ass v value lit sign).2 := by
  unfold State.propagate_variable
  dsimp only
  repeat' split
  all_goals first
    | exact sameSkel_refl s
    | exact sameSkel_update_literal s ass v value (some (decide (0 < sign)))

/-! ## C3: bound monotonicity -/

@[simp] theorem with_upper_upper_stack (vs : VarState) (b : Int) :
    (vs.with_upper b).upper_stack = b :: vs.upper_stack.tail := rfl

@[simp] theorem with_upper_lower_stack (vs : VarState) (b : Int) :
    (vs.with_upper b).lower_stack = vs.lower_stack := rfl

@[simp] theorem with_lower_lower_stack (vs : VarState) (b : Int) :
    (vs.with_lower b).lower_stack = b :: vs.lower_stack.tail := rfl

@[simp] theorem with_lower_upper_stack (vs : VarState) (b : Int) :
    (vs.with_lower b).upper_stack = vs.upper_stack := rfl

@[simp] theorem push_upper_upper_stack (vs : VarState) :
    vs.push_upper.upper_stack = vs.upper_bound :: vs.upper_stack := rfl

@[simp] theorem push_upper_lower_stack (vs : VarState) :
    vs.push_upper.lower_stack = vs.lower_stack := rfl

@[simp] theorem push_lower_lower_stack (vs : VarState) :
    vs.push_lower.lower_stack = vs.lower_bound :: vs.lower_stack := rfl

@[simp] theorem push_lower_upper_stack (vs : VarState) :
    vs.push_lower.upper_stack = vs.upper_stack := rfl

@[simp] theorem with_upper_upper_bound (vs : VarState) (b : Int) :
    (vs.with_upper b).upper_bound = b := rfl

@[simp] theorem with_lower_lower_bound (vs : VarState) (b : Int) :
    (vs.with_lower b).lower_bound = b := rfl

theorem stacksMono_of_sameSkel {s t : State} (h : SameSkel s t) (hm : StacksMono s) :
    StacksMono t := by
  intro v
  rw [h.1 v, h.2.1 v]
  exact hm v

theorem chain_le_push (st : List Int) (value : Int) (hc : List.Chain' (· ≤ ·) st)
    (hlt : value < st.headD 0) : List.Chain' (· ≤ ·) (value :: st) := by
  cases st with
  | nil => simp
  | cons x r =>
    rw [List.chain'_cons]
    exact ⟨le_of_lt (by simpa using hlt), hc⟩

theorem chain_le_set (st : List Int) (value : Int) (hc : List.Chain' (· ≤ ·) st)
    (hlt : value < st.headD 0) : List.Chain' (· ≤ ·) (value :: st.tail) := by
  cases st with
  | nil => simp
  | cons x r =>
    cases r with
    | nil => simp
    | cons y r2 =>
      simp only [List.tail_cons]
      rw [List.chain'_cons] at hc ⊢
      have hvx : value < x := by simpa using hlt
      exact ⟨le_trans (le_of_lt hvx) hc.1, hc.2⟩

theorem chain_ge_push (st : List Int) (value : Int) (hc : List.Chain' (· ≥ ·) st)
    (hlt : st.headD 0 < value + 1) : List.Chain' (· ≥ ·) ((value + 1) :: st) := by
  cases st with
  | nil => simp
  | cons x r =>
    rw [List.chain'_cons]
    have : x < value + 1 := by simpa using hlt
    exact ⟨by omega, hc⟩

theorem chain_ge_set (st : List Int) (value : Int) (hc : List.Chain' (· ≥ ·) st)
    (hlt : st.headD 0 < value + 1) : List.Chain' (· ≥ ·) ((value + 1) :: st.tail) := by
  cases st with
  | nil => simp
  | cons x r =>
    cases r with
    | nil => simp
    | cons y r2 =>
      simp only [List.tail_cons]
      rw [List.chain'_cons] at hc ⊢
      have hvx : x < value + 1 := by simpa using hlt
      have hxy : x ≥ y := hc.1
      exact ⟨by omega, hc.2⟩

theorem mono_apply_upper (s : State) (v : String) (value : Int) (hm : StacksMono s) :
    StacksMono (s.apply_upper_bound v value) := by
  intro w
  unfold State.apply_upper_bound
  dsimp only
  split
  · next hgt =>
    simp only [updVar]
    split
    · next hw =>
      subst hw
      constructor
      · split
        · simp only [with_upper_upper_stack, push_upper_upper_stack, List.tail_cons]
          exact chain_le_push _ value (hm w).1 hgt
        · simp only [with_upper_upper_stack]
          exact chain_le_set _ value (hm w).1 hgt
      · split
        · simp only [with_upper_lower_stack, push_upper_lower_stack]
          exact (hm w).2
        · simp only [with_upper_lower_stack]
          exact (hm w).2
    · exact hm w
  · exact hm w

theorem mono_apply_lower (s : State) (v : String) (value : Int) (hm : StacksMono s) :
    StacksMono (s.apply_lower_bound v value) := by
  intro w
  unfold State.apply_lower_bound
  dsimp only
  split
  · next hlt =>
    simp only [updVar]
    split
    · next hw =>
      subst hw
      constructor
      · split
        · simp only [with_lower_upper_stack, push_lower_upper_stack]
          exact (hm w).1
        · simp only [with_lower_upper_stack]
          exact (hm w).1
      · split
        · simp only [with_lower_lower_stack, push_lower_lower_stack, List.tail_cons]
          exact chain_ge_push _ value (hm w).2 hlt
        · simp only [with_lower_lower_stack]
          exact chain_ge_set _ value (hm w).2 hlt
    · exact hm w
  · exact hm w

theorem mono_upperLoop (ass : Assign) (lit : Int) :
    ∀ (pairs : List (String × Int)) (s : State), StacksMono s →
      StacksMono (upperLoop ass lit pairs s).2 := by
  intro pairs
  induction pairs with
  | nil => intro s h; exact h
  | cons p rest ih =>
    intro s h
    obtain ⟨v, value⟩ := p
    unfold upperLoop
    dsimp only
    have h1 := mono_apply_upper s v value h
    split
    · exact ih _ h1
    · split
      · exact ih _ (stacksMono_of_sameSkel (sameSkel_propagate_variable _ ass v _ lit 1) h1)
      · exact stacksMono_of_sameSkel (sameSkel_propagate_variable _ ass v _ lit 1) h1

theorem mono_lowerLoop (ass : Assign) (lit : Int) :
    ∀ (pairs : List (String × Int)) (s : State), StacksMono s →
      StacksMono (lowerLoop ass lit pairs s).2 := by
  intro pairs
  induction pairs with
  | nil => intro s h; exact h
  | cons p rest ih =>
    intro s h
    obtain ⟨v, value⟩ := p
    unfold lowerLoop
    dsimp only
    have h1 := mono_apply_lower s v value h
    split
    · exact ih _ h1
    · split
      · exact ih _ (stacksMono_of_sameSkel (sameSkel_propagate_variable _ ass v _ lit (-1)) h1)
      · exact stacksMono_of_sameSkel (sameSkel_propagate_variable _ ass v _ lit (-1)) h1

theorem mono_update_domain (s : State) (ass : Assign) (lit : Int) (hm : StacksMono s) :
    StacksMono (s.update_domain ass lit).2 := by
  unfold State.update_domain
  dsimp only
  have key : ∀ (p : Bool × State), StacksMono p.2 →
      StacksMono (if !p.1 then (false, p.2)
        else if p.2.litmap (-lit) ≠ [] then
          lowerLoop ass lit ((p.2.litmap (-lit)).drop
            (if lit = TRUE_LIT then p.2.facts_integrated.2 else 0)) p.2
        else (true, p.2)).2 := by
    intro p hp
    split
    · exact hp
    split
    · exact mono_lowerLoop ass lit _ _ hp
    · exact hp
  apply key
  split
  · exact mono_upperLoop ass lit _ s hm
  · exact hm

theorem mono_push_level (s : State) (level : Nat) (hm : StacksMono s) :
    StacksMono (s.push_level level) := by
  unfold State.push_level
  split
  · exact hm
  · exact hm

theorem mono_propagateLoop (ass : Assign) :
    ∀ (changes : List Int) (s : State), StacksMono s →
      StacksMono (propagateLoop ass changes s).2 := by
  intro changes
  induction changes with
  | nil => intro s h; exact h
  | cons lit rest ih =>
    intro s h
    unfold propagateLoop
    dsimp only
    have h1 : StacksMono ({ s with todo := todoExtend s.todo (s.l2c lit) } : State) := h
    split
    · exact ih _ (mono_update_domain _ ass lit h1)
    · exact mono_update_domain _ ass lit h1

/-- C3: each bound-update step of `_update_domain` either leaves the
bound unchanged (guard `vs.upper_bound > value` resp.
`vs.lower_bound < value + 1` fails and the state is untouched), or
strictly lowers the upper bound to `value` resp. strictly raises the
lower bound to `value + 1`, leaving the opposite stack and all other
variables untouched; consequently `propagate` preserves monotonicity of
every bound stack: lower-bound stacks are nondecreasing and upper-bound
stacks nonincreasing from bottom to top (stacks are stored top-first, so
this is `Chain'` along the list). -/
theorem c3_bound_monotonic (s : State) (ass : Assign) (changes : List Int) (v w : String)
    (value : Int) :
    ((s.vars v).upper_bound ≤ value → s.apply_upper_bound v value = s) ∧
    (value < (s.vars v).upper_bound →
       ((s.apply_upper_bound v value).vars v).upper_bound = value ∧
       ((s.apply_upper_bound v value).vars v).upper_bound < (s.vars v).upper_bound ∧
       ((s.apply_upper_bound v value).vars v).lower_stack = (s.vars v).lower_stack ∧
       (w ≠ v → (s.apply_upper_bound v value).vars w = s.vars w)) ∧
    ((s.vars v).lower_bound ≥ value + 1 → s.apply_lower_bound v value = s) ∧
    (value + 1 > (s.vars v).lower_bound →
       ((s.apply_lower_bound v value).vars v).lower_bound = value + 1 ∧
       ((s.apply_lower_bound v value).vars v).lower_bound > (s.vars v).lower_bound ∧
       ((s.apply_lower_bound v value).vars v).upper_stack = (s.vars v).upper_stack ∧
       (w ≠ v → (s.apply_lower_bound v value).vars w = s.vars w)) ∧
    (StacksMono s → StacksMono (s.propagate ass changes).2) := by
  refine ⟨?_, ?_, ?_, ?_, ?_⟩
  · intro h
    unfold State.apply_upper_bound
    dsimp only
    rw [if_neg (by omega)]
  · intro h
    unfold State.apply_upper_bound
    dsimp only
    rw [if_pos (by omega)]
    refine ⟨?_, ?_, ?_, ?_⟩
    · simp [updVar]
    · simp only [updVar, if_pos rfl]
      show value < (s.vars v).upper_bound
      exact h
    · simp only [updVar, if_pos rfl]
      by_cases ha : (addTodo (s.levels.headD default).undo_upper v).1 = true
      · rw [if_pos ha]; rfl
      · rw [if_neg ha]; rfl
    · intro hw
      simp only [updVar, if_neg hw]
  · intro h
    unfold State.apply_lower_bound
    dsimp only
    rw [if_neg (by omega)]
  · intro h
    unfold State.apply_lower_bound
    dsimp only
    rw [if_pos (by omega)]
    refine ⟨?_, ?_, ?_, ?_⟩
    · simp [updVar]
    · simp only [updVar, if_pos rfl]
      show (s.vars v).lower_bound < value + 1
      omega
    · simp only [updVar, if_pos rfl]
      by_cases ha : (addTodo (s.levels.headD default).undo_lower v).1 = true
      · rw [if_pos ha]; rfl
      · rw [if_neg ha]; rfl
    · intro hw
      simp only [updVar, if_neg hw]
  · intro hm
    exact mono_propagateLoop ass changes _ (mono_push_level s ass.decision_level hm)

/-- Witness for C3: a strictly lowering upper-bound step on a concrete
state, and monotone stacks preserved by a concrete propagate call. -/
theorem c3_witness :
    ((3 : Int) < (w7state.vars "y").upper_bound ∧
     ((w7state.apply_upper_bound "y" 3).vars "y").upper_bound = 3 ∧
     ((w7state.apply_upper_bound "y" 3).vars "y").upper_bound <
       (w7state.vars "y").upper_bound) ∧
    (StacksMono w7state →
      StacksMono (w7state.propagate ⟨fun _ => none, fun _ => false, 0⟩ []).2) := by
  have h := c3_bound_monotonic w7state ⟨fun _ => none, fun _ => false, 0⟩ [] "y" "x" 3
  have h2 := h.2.1 (by decide)
  exact ⟨⟨by decide, h2.1, h2.2.1⟩, h.2.2.2.2⟩

/-! ## C4: trail/undo round trip -/

theorem diffGet_bump_self (l : List (String × Int)) (v : String) (d : Int) :
    diffGet (diffBump l v d) v = diffGet l v + d := by
  induction l with
  | nil => simp [diffBump, diffGet]
  | cons p r ih =>
    obtain ⟨k, x⟩ := p
    by_cases hk : k = v
    · subst hk
      simp [diffBump, diffGet]
    · simp [diffBump, diffGet, hk, ih]

theorem diffGet_bump_other (l : List (String × Int)) (v w : String) (d : Int) (h : w ≠ v) :
    diffGet (diffBump l v d) w = diffGet l w := by
  induction l with
  | nil =>
    simp only [diffBump, diffGet]
    rw [if_neg (fun hh : v = w => h hh.symm)]
  | cons p r ih =>
    obtain ⟨k, x⟩ := p
    by_cases hk : k = v
    · subst hk
      simp only [diffBump, if_pos rfl, diffGet]
      rw [if_neg (fun hh : k = w => h (hh ▸ rfl)), if_neg (fun hh : k = w => h (hh ▸ rfl))]
    · by_cases hkw : k = w
      · subst hkw
        simp [diffBump, diffGet, hk]
      · simp [diffBump, diffGet, hk, hkw, ih]

theorem addTodo_mem {α : Type} [DecidableEq α] (l : List α) (x y : α) :
    y ∈ (addTodo l x).2 ↔ (y ∈ l ∨ y = x) := by
  unfold addTodo
  split
  · next hx =>
    simp only
    constructor
    · exact fun h => Or.inl h
    · rintro (h | rfl)
      · exact h
      · exact hx
  · simp [List.mem_append]

theorem addTodo_nodup {α : Type} [DecidableEq α] (l : List α) (x : α) (h : l.Nodup) :
    (addTodo l x).2.Nodup := by
  unfold addTodo
  split
  · exact h
  · next hx => simpa [List.nodup_append] using ⟨h, hx⟩

theorem addTodo_fst {α : Type} [DecidableEq α] (l : List α) (x : α) :
    (addTodo l x).1 = true ↔ x ∉ l := by
  unfold addTodo
  split <;> simp_all

theorem lower_bound_congr {vs ws : VarState} (h : vs.lower_stack = ws.lower_stack) :
    vs.lower_bound = ws.lower_bound := by
  unfold VarState.lower_bound
  rw [h]

theorem upper_bound_congr {vs ws : VarState} (h : vs.upper_stack = ws.upper_stack) :
    vs.upper_bound = ws.upper_bound := by
  unfold VarState.upper_bound
  rw [h]

theorem propInv_of_sameSkel {S0 : State} {dl : Nat} {s t : State}
    (hsk : SameSkel s t) (h : PropInv S0 dl s) : PropInv S0 dl t := by
  obtain ⟨hls, hus, hlev, hld, hud, hcs, hv2⟩ := hsk
  obtain ⟨F, h1, h2, h3, h4, h5, h6, h7, h8, h9, h10, h11, h12⟩ := h
  refine ⟨F, ?_, h2, h3, h4, h5, h6, ?_, ?_, ?_, ?_, ?_, ?_⟩
  · rw [hlev, h1]
  · intro i; rw [hcs i]; exact h7 i
  · intro v; rw [hv2 v]; exact h8 v
  · intro v hv
    refine ⟨by rw [hls v]; exact (h9 v hv).1, ?_⟩
    rw [hld, lower_bound_congr (hls v)]
    exact (h9 v hv).2
  · intro v hv
    refine ⟨by rw [hls v]; exact (h10 v hv).1, by rw [hld]; exact (h10 v hv).2⟩
  · intro v hv
    refine ⟨by rw [hus v]; exact (h11 v hv).1, ?_⟩
    rw [hud, upper_bound_congr (hus v)]
    exact (h11 v hv).2
  · intro v hv
    refine ⟨by rw [hus v]; exact (h12 v hv).1, by rw [hud]; exact (h12 v hv).2⟩

theorem propInv_push (S0 : State) (dl : Nat)
    (hlvl : (S0.levels.headD default).level < dl)
    (hld : S0.ldiff = []) (hud : S0.udiff = []) :
    PropInv S0 dl (S0.push_level dl) := by
  unfold State.push_level
  rw [if_pos hlvl]
  refine ⟨mkLevel dl, rfl, rfl, rfl, rfl, List.nodup_nil, List.nodup_nil,
    fun _ => rfl, fun _ => rfl, ?_, ?_, ?_, ?_⟩
  · intro v hv
    exact absurd hv (List.not_mem_nil v)
  · intro v _
    exact ⟨rfl, by rw [hld]; rfl⟩
  · intro v hv
    exact absurd hv (List.not_mem_nil v)
  · intro v _
    exact ⟨rfl, by rw [hud]; rfl⟩

theorem propInv_apply_lower (S0 : State) (dl : Nat) (s : State) (v : String) (value : Int)
    (h : PropInv S0 dl s) : PropInv S0 dl (s.apply_lower_bound v value) := by
  obtain ⟨F, h1, h2, h3, h4, h5, h6, h7, h8, h9, h10, h11, h12⟩ := h
  unfold State.apply_lower_bound
  dsimp only
  split
  case isFalse =>
    exact ⟨F, h1, h2, h3, h4, h5, h6, h7, h8, h9, h10, h11, h12⟩
  case isTrue hguard =>
    rw [h1]
    simp only [List.headD_cons, List.tail_cons]
    refine ⟨{ F with undo_lower := (addTodo F.undo_lower v).2 }, rfl, h2, h3, h4,
      addTodo_nodup _ _ h5, h6, h7, h8, ?_, ?_, ?_, ?_⟩
    · intro w hw
      by_cases hwv : w = v
      · subst hwv
        simp only [updVar]
        simp only [if_true]
        by_cases hc : (addTodo F.undo_lower w).1 = true
        · have hnot : w ∉ F.undo_lower := (addTodo_fst F.undo_lower w).1 hc
          obtain ⟨hst, hdf⟩ := h10 w hnot
          rw [if_pos hc]
          constructor
          · simp only [with_lower_lower_stack, push_lower_lower_stack, List.tail_cons]
            exact hst
          · rw [diffGet_bump_self, hdf]
            have hlb : (s.vars w).lower_bound = (S0.vars w).lower_bound :=
              lower_bound_congr hst
            simp only [with_lower_lower_bound]
            omega
        · have hmem : w ∈ F.undo_lower := by
            by_contra hnm
            exact hc ((addTodo_fst F.undo_lower w).2 hnm)
          obtain ⟨hst, hdf⟩ := h9 w hmem
          rw [if_neg hc]
          constructor
          · simp only [with_lower_lower_stack, List.tail_cons]
            exact hst
          · rw [diffGet_bump_self, hdf]
            simp only [with_lower_lower_bound]
            omega
      · have hw' : w ∈ F.undo_lower := by
          rcases (addTodo_mem F.undo_lower v w).1 hw with h | h
          · exact h
          · exact absurd h hwv
        obtain ⟨hst, hdf⟩ := h9 w hw'
        simp only [updVar, if_neg hwv]
        exact ⟨hst, by rw [diffGet_bump_other _ _ _ _ hwv]; exact hdf⟩
    · intro w hw
      have hwv : w ≠ v := by
        intro hh
        exact hw ((addTodo_mem F.undo_lower v w).2 (Or.inr hh))
      have hw' : w ∉ F.undo_lower := by
        intro hh
        exact hw ((addTodo_mem F.undo_lower v w).2 (Or.inl hh))
      obtain ⟨hst, hdf⟩ := h10 w hw'
      simp only [updVar, if_neg hwv]
      exact ⟨hst, by rw [diffGet_bump_other _ _ _ _ hwv]; exact hdf⟩
    · intro w hw
      obtain ⟨hst, hdf⟩ := h11 w hw
      by_cases hwv : w = v
      · subst hwv
        simp only [updVar]
        simp only [if_true]
        constructor
        · have : ((if (addTodo F.undo_lower w).1 = true then (s.vars w).push_lower
              else s.vars w).with_lower (value + 1)).upper_stack = (s.vars w).upper_stack := by
            split <;> simp
          rw [this]
          exact hst
        · have : ((if (addTodo F.undo_lower w).1 = true then (s.vars w).push_lower
              else s.vars w).with_lower (value + 1)).upper_stack = (s.vars w).upper_stack := by
            split <;> simp
          rw [upper_bound_congr this]
          exact hdf
      · simp only [updVar, if_neg hwv]
        exact ⟨hst, hdf⟩
    · intro w hw
      obtain ⟨hst, hdf⟩ := h12 w hw
      by_cases hwv : w = v
      · subst hwv
        simp only [updVar]
        simp only [if_true]
        have : ((if (addTodo F.undo_lower w).1 = true then (s.vars w).push_lower
            else s.vars w).with_lower (value + 1)).upper_stack = (s.vars w).upper_stack := by
          split <;> simp
        exact ⟨by rw [this]; exact hst, hdf⟩
      · simp only [updVar, if_neg hwv]
        exact ⟨hst, hdf⟩

theorem propInv_apply_upper (S0 : State) (dl : Nat) (s : State) (v : String) (value : Int)
    (h : PropInv S0 dl s) : PropInv S0 dl (s.apply_upper_bound v value) := by
  obtain ⟨F, h1, h2, h3, h4, h5, h6, h7, h8, h9, h10, h11, h12⟩ := h
  unfold State.apply_upper_bound
  dsimp only
  split
  case isFalse =>
    exact ⟨F, h1, h2, h3, h4, h5, h6, h7, h8, h9, h10, h11, h12⟩
  case isTrue hguard =>
    rw [h1]
    simp only [List.headD_cons, List.tail_cons]
    refine ⟨{ F with undo_upper := (addTodo F.undo_upper v).2 }, rfl, h2, h3, h4,
      h5, addTodo_nodup _ _ h6, h7, h8, ?_, ?_, ?_, ?_⟩
    · intro w hw
      obtain ⟨hst, hdf⟩ := h9 w hw
      by_cases hwv : w = v
      · subst hwv
        simp only [updVar]
        simp only [if_true]
        have hkeep : ((if (addTodo F.undo_upper w).1 = true then (s.vars w).push_upper
            else s.vars w).with_upper value).lower_stack = (s.vars w).lower_stack := by
          split <;> simp
        refine ⟨by rw [hkeep]; exact hst, ?_⟩
        rw [lower_bound_congr hkeep]
        exact hdf
      · simp only [updVar, if_neg hwv]
        exact ⟨hst, hdf⟩
    · intro w hw
      obtain ⟨hst, hdf⟩ := h10 w hw
      by_cases hwv : w = v
      · subst hwv
        simp only [updVar]
        simp only [if_true]
        have hkeep : ((if (addTodo F.undo_upper w).1 = true then (s.vars w).push_upper
            else s.vars w).with_upper value).lower_stack = (s.vars w).lower_stack := by
          split <;> simp
        exact ⟨by rw [hkeep]; exact hst, hdf⟩
      · simp only [updVar, if_neg hwv]
        exact ⟨hst, hdf⟩
    · intro w hw
      by_cases hwv : w = v
      · subst hwv
        simp only [updVar]
        simp only [if_true]
        by_cases hc : (addTodo F.undo_upper w).1 = true
        · have hnot : w ∉ F.undo_upper := (addTodo_fst F.undo_upper w).1 hc
          obtain ⟨hst, hdf⟩ := h12 w hnot
          rw [if_pos hc]
          constructor
          · simp only [with_upper_upper_stack, push_upper_upper_stack, List.tail_cons]
            exact hst
          · rw [diffGet_bump_self, hdf]
            have hub : (s.vars w).upper_bound = (S0.vars w).upper_bound :=
              upper_bound_congr hst
            simp only [with_upper_upper_bound]
            omega
        · have hmem : w ∈ F.undo_upper := by
            by_contra hnm
            exact hc ((addTodo_fst F.undo_upper w).2 hnm)
          obtain ⟨hst, hdf⟩ := h11 w hmem
          rw [if_neg hc]
          constructor
          · simp only [with_upper_upper_stack, List.tail_cons]
            exact hst
          · rw [diffGet_bump_self, hdf]
            simp only [with_upper_upper_bound]
            omega
      · have hw' : w ∈ F.undo_upper := by
          rcases (addTodo_mem F.undo_upper v w).1 hw with h | h
          · exact h
          · exact absurd h hwv
        obtain ⟨hst, hdf⟩ := h11 w hw'
        simp only [updVar, if_neg hwv]
        exact ⟨hst, by rw [diffGet_bump_other _ _ _ _ hwv]; exact hdf⟩
    · intro w hw
      have hwv : w ≠ v := by
        intro hh
        exact hw ((addTodo_mem F.undo_upper v w).2 (Or.inr hh))
      have hw' : w ∉ F.undo_upper := by
        intro hh
        exact hw ((addTodo_mem F.undo_upper v w).2 (Or.inl hh))
      obtain ⟨hst, hdf⟩ := h12 w hw'
      simp only [updVar, if_neg hwv]
      exact ⟨hst, by rw [diffGet_bump_other _ _ _ _ hwv]; exact hdf⟩

theorem propInv_upperLoop (S0 : State) (dl : Nat) (ass : Assign) (lit : Int) :
    ∀ (pairs : List (String × Int)) (s : State), PropInv S0 dl s →
      PropInv S0 dl (upperLoop ass lit pairs s).2 := by
  intro pairs
  induction pairs with
  | nil => intro s h; exact h
  | cons p rest ih =>
    intro s h
    obtain ⟨v, value⟩ := p
    unfold upperLoop
    dsimp only
    have h1 := propInv_apply_upper S0 dl s v value h
    split
    · exact ih _ h1
    · split
      · exact ih _ (propInv_of_sameSkel (sameSkel_propagate_variable _ ass v _ lit 1) h1)
      · exact propInv_of_sameSkel (sameSkel_propagate_variable _ ass v _ lit 1) h1

theorem propInv_lowerLoop (S0 : State) (dl : Nat) (ass : Assign) (lit : Int) :
    ∀ (pairs : List (String × Int)) (s : State), PropInv S0 dl s →
      PropInv S0 dl (lowerLoop ass lit pairs s).2 := by
  intro pairs
  induction pairs with
  | nil => intro s h; exact h
  | cons p rest ih =>
    intro s h
    obtain ⟨v, value⟩ := p
    unfold lowerLoop
    dsimp only
    have h1 := propInv_apply_lower S0 dl s v value h
    split
    · exact ih _ h1
    · split
      · exact ih _ (propInv_of_sameSkel (sameSkel_propagate_variable _ ass v _ lit (-1)) h1)
      · exact propInv_of_sameSkel (sameSkel_propagate_variable _ ass v _ lit (-1)) h1

theorem propInv_update_domain (S0 : State) (dl : Nat) (s : State) (ass : Assign) (lit : Int)
    (h : PropInv S0 dl s) : PropInv S0 dl (s.update_domain ass lit).2 := by
  unfold State.update_domain
  dsimp only
  have key : ∀ (p : Bool × State), PropInv S0 dl p.2 →
      PropInv S0 dl (if !p.1 then (false, p.2)
        else if p.2.litmap (-lit) ≠ [] then
          lowerLoop ass lit ((p.2.litmap (-lit)).drop
            (if lit = TRUE_LIT then p.2.facts_integrated.2 else 0)) p.2
        else (true, p.2)).2 := by
    intro p hp
    split
    · exact hp
    split
    · exact propInv_lowerLoop S0 dl ass lit _ _ hp
    · exact hp
  apply key
  split
  · exact propInv_upperLoop S0 dl ass lit _ s h
  · exact h

theorem propInv_propagateLoop (S0 : State) (dl : Nat) (ass : Assign) :
    ∀ (changes : List Int) (s : State), PropInv S0 dl s →
      PropInv S0 dl (propagateLoop ass changes s).2 := by
  intro changes
  induction changes with
  | nil => intro s h; exact h
  | cons lit rest ih =>
    intro s h
    unfold propagateLoop
    dsimp only
    have h1 : PropInv S0 dl ({ s with todo := todoExtend s.todo (s.l2c lit) } : State) := by
      obtain ⟨F, a1, a2, a3, a4, a5, a6, a7, a8, a9, a10, a11, a12⟩ := h
      exact ⟨F, a1, a2, a3, a4, a5, a6, a7, a8, a9, a10, a11, a12⟩
    split
    · exact ih _ (propInv_update_domain S0 dl _ ass lit h1)
    · exact propInv_update_domain S0 dl _ ass lit h1

theorem propInv_propagate (S0 : State) (ass : Assign) (changes : List Int)
    (hlvl : (S0.levels.headD default).level < ass.decision_level)
    (hld : S0.ldiff = []) (hud : S0.udiff = []) :
    PropInv S0 ass.decision_level (S0.propagate ass changes).2 :=
  propInv_propagateLoop S0 ass.decision_level ass changes _
    (propInv_push S0 ass.decision_level hlvl hld hud)

@[simp] theorem pop_lower_lower_stack (vs : VarState) :
    vs.pop_lower.lower_stack = vs.lower_stack.tail := rfl

@[simp] theorem pop_lower_upper_stack (vs : VarState) :
    vs.pop_lower.upper_stack = vs.upper_stack := rfl

@[simp] theorem pop_upper_upper_stack (vs : VarState) :
    vs.pop_upper.upper_stack = vs.upper_stack.tail := rfl

@[simp] theorem pop_upper_lower_stack (vs : VarState) :
    vs.pop_upper.lower_stack = vs.lower_stack := rfl

theorem undo_var_lower_frozen (S0 s : State) (v : String)
    (h1 : (s.vars v).lower_stack.tail = (S0.vars v).lower_stack)
    (h2 : diffGet s.ldiff v = (s.vars v).lower_bound - (S0.vars v).lower_bound) :
    s.undo_var_lower v = { s with vars := updVar s.vars v (s.vars v).pop_lower } := by
  unfold State.undo_var_lower
  dsimp only
  have hpop : ((s.vars v).pop_lower).lower_bound = (S0.vars v).lower_bound := by
    show (s.vars v).lower_stack.tail.headD 0 = _
    rw [h1]
    rfl
  rw [if_neg (by rw [h2, hpop]; omega)]

theorem undo_var_upper_frozen (S0 s : State) (v : String)
    (h1 : (s.vars v).upper_stack.tail = (S0.vars v).upper_stack)
    (h2 : diffGet s.udiff v = (s.vars v).upper_bound - (S0.vars v).upper_bound) :
    s.undo_var_upper v = { s with vars := updVar s.vars v (s.vars v).pop_upper } := by
  unfold State.undo_var_upper
  dsimp only
  have hpop : ((s.vars v).pop_upper).upper_bound = (S0.vars v).upper_bound := by
    show (s.vars v).upper_stack.tail.headD 0 = _
    rw [h1]
    rfl
  rw [if_neg (by rw [h2, hpop]; omega)]

theorem undo_fold_lower (S0 : State) :
    ∀ (L : List String) (s : State), L.Nodup →
      (∀ v ∈ L, (s.vars v).lower_stack.tail = (S0.vars v).lower_stack ∧
        diffGet s.ldiff v = (s.vars v).lower_bound - (S0.vars v).lower_bound) →
      (∀ v ∈ L, ((L.foldl State.undo_var_lower s).vars v).lower_stack =
         (S0.vars v).lower_stack) ∧
      (∀ v, v ∉ L → (L.foldl State.undo_var_lower s).vars v = s.vars v) ∧
      (∀ v, ((L.foldl State.undo_var_lower s).vars v).upper_stack =
         (s.vars v).upper_stack) ∧
      ((L.foldl State.undo_var_lower s).ldiff = s.ldiff ∧
       (L.foldl State.undo_var_lower s).udiff = s.udiff ∧
       (L.foldl State.undo_var_lower s).levels = s.levels ∧
       (∀ i, (L.foldl State.undo_var_lower s).cstates i = s.cstates i) ∧
       (∀ v, (L.foldl State.undo_var_lower s).v2cs v = s.v2cs v)) := by
  intro L
  induction L with
  | nil =>
    intro s _ _
    exact ⟨by simp, fun v _ => rfl, fun v => rfl, rfl, rfl, rfl, fun _ => rfl, fun _ => rfl⟩
  | cons v rest ih =>
    intro s hnd hmem
    have hv := hmem v (List.mem_cons_self v rest)
    have hfrozen := undo_var_lower_frozen S0 s v hv.1 hv.2
    rw [List.foldl_cons, hfrozen]
    set s1 : State := { s with vars := updVar s.vars v (s.vars v).pop_lower } with hs1
    have hvars1 : ∀ w, w ≠ v → s1.vars w = s.vars w := by
      intro w hwv
      rw [hs1]
      simp only [updVar, if_neg hwv]
    have hvars1v : s1.vars v = (s.vars v).pop_lower := by
      rw [hs1]
      simp [updVar]
    have hvnotin : v ∉ rest := (List.nodup_cons.1 hnd).1
    have hrest : ∀ w ∈ rest, (s1.vars w).lower_stack.tail = (S0.vars w).lower_stack ∧
        diffGet s1.ldiff w = (s1.vars w).lower_bound - (S0.vars w).lower_bound := by
      intro w hw
      have hwv : w ≠ v := fun hh => hvnotin (hh ▸ hw)
      rw [hvars1 w hwv]
      exact hmem w (List.mem_cons_of_mem v hw)
    obtain ⟨c1, c2, c3, c4⟩ := ih s1 (List.nodup_cons.1 hnd).2 hrest
    refine ⟨?_, ?_, ?_, ?_⟩
    · intro w hw
      rcases List.mem_cons.1 hw with rfl | hw2
      · rw [c2 w hvnotin, hvars1v]
        simp only [pop_lower_lower_stack]
        exact hv.1
      · exact c1 w hw2
    · intro w hw
      have hwv : w ≠ v := fun hh => hw (hh ▸ List.mem_cons_self v rest)
      have hwr : w ∉ rest := fun hh => hw (List.mem_cons_of_mem v hh)
      rw [c2 w hwr, hvars1 w hwv]
    · intro w
      rw [c3 w]
      by_cases hwv : w = v
      · subst hwv
        rw [hvars1v]
        simp only [pop_lower_upper_stack]
      · rw [hvars1 w hwv]
    · exact c4

theorem undo_fold_upper (S0 : State) :
    ∀ (L : List String) (s : State), L.Nodup →
      (∀ v ∈ L, (s.vars v).upper_stack.tail = (S0.vars v).upper_stack ∧
        diffGet s.udiff v = (s.vars v).upper_bound - (S0.vars v).upper_bound) →
      (∀ v ∈ L, ((L.foldl State.undo_var_upper s).vars v).upper_stack =
         (S0.vars v).upper_stack) ∧
      (∀ v, v ∉ L → (L.foldl State.undo_var_upper s).vars v = s.vars v) ∧
      (∀ v, ((L.foldl State.undo_var_upper s).vars v).lower_stack =
         (s.vars v).lower_stack) ∧
      ((L.foldl State.undo_var_upper s).ldiff = s.ldiff ∧
       (L.foldl State.undo_var_upper s).udiff = s.udiff ∧
       (L.foldl State.undo_var_upper s).levels = s.levels ∧
       (∀ i, (L.foldl State.undo_var_upper s).cstates i = s.cstates i) ∧
       (∀ v, (L.foldl State.undo_var_upper s).v2cs v = s.v2cs v)) := by
  intro L
  induction L with
  | nil =>
    intro s _ _
    exact ⟨by simp, fun v _ => rfl, fun v => rfl, rfl, rfl, rfl, fun _ => rfl, fun _ => rfl⟩
  | cons v rest ih =>
    intro s hnd hmem
    have hv := hmem v (List.mem_cons_self v rest)
    have hfrozen := undo_var_upper_frozen S0 s v hv.1 hv.2
    rw [List.foldl_cons, hfrozen]
    set s1 : State := { s with vars := updVar s.vars v (s.vars v).pop_upper } with hs1
    have hvars1 : ∀ w, w ≠ v → s1.vars w = s.vars w := by
      intro w hwv
      rw [hs1]
      simp only [updVar, if_neg hwv]
    have hvars1v : s1.vars v = (s.vars v).pop_upper := by
      rw [hs1]
      simp [updVar]
    have hvnotin : v ∉ rest := (List.nodup_cons.1 hnd).1
    have hrest : ∀ w ∈ rest, (s1.vars w).upper_stack.tail = (S0.vars w).upper_stack ∧
        diffGet s1.udiff w = (s1.vars w).upper_bound - (S0.vars w).upper_bound := by
      intro w hw
      have hwv : w ≠ v := fun hh => hvnotin (hh ▸ hw)
      rw [hvars1 w hwv]
      exact hmem w (List.mem_cons_of_mem v hw)
    obtain ⟨c1, c2, c3, c4⟩ := ih s1 (List.nodup_cons.1 hnd).2 hrest
    refine ⟨?_, ?_, ?_, ?_⟩
    · intro w hw
      rcases List.mem_cons.1 hw with rfl | hw2
      · rw [c2 w hvnotin, hvars1v]
        simp only [pop_upper_upper_stack]
        exact hv.1
      · exact c1 w hw2
    · intro w hw
      have hwv : w ≠ v := fun hh => hw (hh ▸ List.mem_cons_self v rest)
      have hwr : w ∉ rest := fun hh => hw (List.mem_cons_of_mem v hh)
      rw [c2 w hwr, hvars1 w hwv]
    · intro w
      rw [c3 w]
      by_cases hwv : w = v
      · subst hwv
        rw [hvars1v]
        simp only [pop_upper_lower_stack]
      · rw [hvars1 w hwv]
    · exact c4

theorem propInv_undo (S0 : State) (dl : Nat) (s : State) (h : PropInv S0 dl s) :
    (∀ v, ((s.undo).vars v).lower_stack = (S0.vars v).lower_stack) ∧
    (∀ v, ((s.undo).vars v).upper_stack = (S0.vars v).upper_stack) ∧
    (∀ i, (s.undo).cstates i = S0.cstates i) ∧
    (∀ v, (s.undo).v2cs v = S0.v2cs v) ∧
    (s.undo).levels = S0.levels := by
  obtain ⟨F, h1, h2, h3, h4, h5, h6, h7, h8, h9, h10, h11, h12⟩ := h
  unfold State.undo
  dsimp only
  rw [h1]
  simp only [List.headD_cons, List.tail_cons]
  rw [h3, h4]
  simp only [List.foldl_nil]
  obtain ⟨a1, a2, a3, a4⟩ := undo_fold_lower S0 F.undo_lower s h5 h9
  set s1 : State := F.undo_lower.foldl State.undo_var_lower s with hs1
  set s2 : State := { s1 with ldiff := [] } with hs2
  have hupper_mem : ∀ v ∈ F.undo_upper,
      (s2.vars v).upper_stack.tail = (S0.vars v).upper_stack ∧
      diffGet s2.udiff v = (s2.vars v).upper_bound - (S0.vars v).upper_bound := by
    intro v hv
    have hstack : (s2.vars v).upper_stack = (s.vars v).upper_stack := a3 v
    refine ⟨by rw [hstack]; exact (h11 v hv).1, ?_⟩
    have hud : s2.udiff = s.udiff := a4.2.1
    rw [hud, upper_bound_congr hstack]
    exact (h11 v hv).2
  obtain ⟨b1, b2, b3, b4⟩ := undo_fold_upper S0 F.undo_upper s2 h6 hupper_mem
  set s3 : State := F.undo_upper.foldl State.undo_var_upper s2 with hs3
  refine ⟨?_, ?_, ?_, ?_, ?_⟩
  · intro v
    show (s3.vars v).lower_stack = _
    rw [b3 v]
    by_cases hv : v ∈ F.undo_lower
    · exact a1 v hv
    · show (s1.vars v).lower_stack = _
      rw [a2 v hv]
      exact (h10 v hv).1
  · intro v
    show (s3.vars v).upper_stack = _
    by_cases hv : v ∈ F.undo_upper
    · exact b1 v hv
    · rw [b2 v hv]
      have : (s2.vars v).upper_stack = (s.vars v).upper_stack := a3 v
      rw [this]
      exact (h12 v hv).1
  · intro i
    show s3.cstates i = _
    rw [b4.2.2.2.1 i]
    show s1.cstates i = _
    rw [a4.2.2.2.1 i]
    exact h7 i
  · intro v
    show s3.v2cs v = _
    rw [b4.2.2.2.2 v]
    show s1.v2cs v = _
    rw [a4.2.2.2.2 v]
    exact h8 v
  · show s3.levels.tail = _
    rw [b4.2.2.1]
    show s1.levels.tail = _
    rw [a4.2.2.1, h1]
    rfl

/-- C4 (amended): from a state with no pending bound diffs (`_udiff`
and `_ldiff` empty, as at every fixpoint) whose top frame is below the
host's decision level, `propagate(cc, changes)` followed by `undo()`
restores the `VarState` bound stacks, the cached bounds of every
`ConstraintState`, the `_v2cs` lists, and the frame stack exactly (host
literals allocated in between remain, as the claim allows). -/
theorem c4_propagate_undo (S0 : State) (ass : Assign) (changes : List Int)
    (hlvl : (S0.levels.headD default).level < ass.decision_level)
    (hld : S0.ldiff = []) (hud : S0.udiff = []) :
    (∀ v, ((State.undo (S0.propagate ass changes).2).vars v).lower_stack =
       (S0.vars v).lower_stack) ∧
    (∀ v, ((State.undo (S0.propagate ass changes).2).vars v).upper_stack =
       (S0.vars v).upper_stack) ∧
    (∀ i, (State.undo (S0.propagate ass changes).2).cstates i = S0.cstates i) ∧
    (∀ v, (State.undo (S0.propagate ass changes).2).v2cs v = S0.v2cs v) ∧
    (State.undo (S0.propagate ass changes).2).levels = S0.levels :=
  propInv_undo S0 ass.decision_level _ (propInv_propagate S0 ass changes hlvl hld hud)

/-- C4 counterexample: with a bound diff still pending in `_ldiff` from
a lower level (no `check` in between), `propagate` followed by `undo`
does NOT restore the constraint-state caches: constraint 0's cached
upper bound changes from 0 to 1, although the top frame's level (1) is
below the decision level (2) as the claim requires. -/
theorem c4_counterexample :
    (w4state.levels.headD default).level < w4assign.decision_level ∧
    (w4state.cstates 0).upper_bound = 0 ∧
    ((State.undo (w4state.propagate w4assign [2]).2).cstates 0).upper_bound = 1 := by
  refine ⟨by decide, rfl, ?_⟩
  decide

/-- Witness for C4 (amended) on the empty state at decision level 1. -/
theorem c4_witness :
    ((emptyState.levels.headD default).level <
       (Assign.mk (fun _ => none) (fun _ => false) 1).decision_level ∧
     emptyState.ldiff = [] ∧ emptyState.udiff = []) ∧
    (∀ v, ((State.undo
        (emptyState.propagate (Assign.mk (fun _ => none) (fun _ => false) 1) [2]).2).vars
          v).lower_stack = (emptyState.vars v).lower_stack) ∧
    (∀ i, (State.undo
        (emptyState.propagate (Assign.mk (fun _ => none) (fun _ => false) 1) [2]).2).cstates i =
      emptyState.cstates i) :=
  ⟨⟨by decide, rfl, rfl⟩,
   (c4_propagate_undo emptyState (Assign.mk (fun _ => none) (fun _ => false) 1) [2]
      (by decide) rfl rfl).1,
   (c4_propagate_undo emptyState (Assign.mk (fun _ => none) (fun _ => false) 1) [2]
      (by decide) rfl rfl).2.2.1⟩

/-! ## C6: translation to weight constraints -/

theorem prop_value_ge_lb (co slack lb : Int) (hco : 0 < co) (hs : 0 ≤ slack) :
    lb ≤ prop_value co (prop_diff co slack lb) := by
  unfold prop_value prop_diff
  rw [if_pos hco, Int.fdiv_eq_ediv _ hco.le]
  calc lb = co * lb / co := (Int.mul_ediv_cancel_left lb (by omega)).symm
    _ ≤ (slack + co * lb) / co := Int.ediv_le_ediv hco (by omega)

theorem prop_value_le_ub (co slack ub : Int) (hco : co < 0) (hs : 0 ≤ slack) :
    prop_value co (prop_diff co slack ub) ≤ ub := by
  unfold prop_value prop_diff
  rw [if_neg (by omega), Int.fdiv_eq_ediv _ (by omega)]
  have key : (-co) * (-ub) / (-co) ≤ (slack + co * ub) / (-co) := by
    apply Int.ediv_le_ediv (by omega)
    have h1 : (-co) * (-ub) = co * ub := by ring
    omega
  rw [Int.mul_ediv_cancel_left _ (by omega)] at key
  omega

@[simp] theorem intRange_length (a b : Int) : (intRange a b).length = (b - a).toNat := by
  rw [intRange, List.length_map, List.length_range]

theorem wlitsRange_spec (neg : Bool) (w : Int) (v : String) :
    ∀ (is : List Int) (s : State) (acc : List (Int × Int)),
      (wlitsRange neg w v is s acc).1.length = acc.length + is.length ∧
      SameSkel s (wlitsRange neg w v is s acc).2 ∧
      (wlitsRange neg w v is s acc).2.weights = s.weights ∧
      (wlitsRange neg w v is s acc).2.cstate_keys = s.cstate_keys := by
  intro is
  induction is with
  | nil => intro s acc; exact ⟨by simp [wlitsRange], sameSkel_refl s, rfl, rfl⟩
  | cons i rest ih =>
    intro s acc
    unfold wlitsRange
    dsimp only
    obtain ⟨l1, l2, l3, l4⟩ := ih (s.get_literal v i).2 (acc ++ [(if neg then -(s.get_literal v i).1 else (s.get_literal v i).1, w)])
    have hw : (s.get_literal v i).2.weights = s.weights := by
      unfold State.get_literal
      dsimp only
      split
      · rfl
      split
      · rfl
      split
      · rfl
      · rfl
    have hk : (s.get_literal v i).2.cstate_keys = s.cstate_keys := by
      unfold State.get_literal
      dsimp only
      split
      · rfl
      split
      · rfl
      split
      · rfl
      · rfl
    refine ⟨by rw [l1]; simp; omega, (sameSkel_get_literal s v i).trans l2, ?_, ?_⟩
    · rw [l3, hw]
    · rw [l4, hk]

theorem wlits_count (slack : Int) (hs : 0 ≤ slack) :
    ∀ (elements : List (Int × String)) (s s0 : State) (acc : List (Int × Int)),
      (∀ v, (s.vars v).lower_stack = (s0.vars v).lower_stack) →
      (∀ v, (s.vars v).upper_stack = (s0.vars v).upper_stack) →
      (∀ el ∈ elements, el.1 ≠ 0 ∧
        (s0.vars el.2).lower_bound ≤ (s0.vars el.2).upper_bound) →
      (((wlitsLoop slack elements s acc).1.length : Int) =
        estimateLoop s0 slack elements (acc.length : Int)) ∧
      (wlitsLoop slack elements s acc).2.weights = s.weights ∧
      (wlitsLoop slack elements s acc).2.cstate_keys = s.cstate_keys := by
  intro elements
  induction elements with
  | nil =>
    intro s s0 acc _ _ _
    exact ⟨rfl, rfl, rfl⟩
  | cons el rest ih =>
    intro s s0 acc hls hus helem
    obtain ⟨co, v⟩ := el
    have hel := helem (co, v) (List.mem_cons_self _ rest)
    have hco : co ≠ 0 := hel.1
    have hlu : (s0.vars v).lower_bound ≤ (s0.vars v).upper_bound := hel.2
    have hlb : (s.vars v).lower_bound = (s0.vars v).lower_bound :=
      lower_bound_congr (hls v)
    have hub : (s.vars v).upper_bound = (s0.vars v).upper_bound :=
      upper_bound_congr (hus v)
    unfold wlitsLoop estimateLoop
    dsimp only
    rcases lt_or_gt_of_ne hco with hneg | hpos
    · rw [if_neg (by omega), if_neg (by omega)]
      obtain ⟨r1, r2, r3, r4⟩ := wlitsRange_spec false (-co) v
        (intRange (max (prop_value co (prop_diff co slack (s.vars v).upper_bound) - 1)
          (s.vars v).lower_bound) (s.vars v).upper_bound) s acc
      have hstacks1 : ∀ u, ((wlitsRange false (-co) v
          (intRange (max (prop_value co (prop_diff co slack (s.vars v).upper_bound) - 1)
            (s.vars v).lower_bound) (s.vars v).upper_bound) s acc).2.vars u).lower_stack =
          (s0.vars u).lower_stack := fun u => (r2.1 u).trans (hls u)
      have hstacks2 : ∀ u, ((wlitsRange false (-co) v
          (intRange (max (prop_value co (prop_diff co slack (s.vars v).upper_bound) - 1)
            (s.vars v).lower_bound) (s.vars v).upper_bound) s acc).2.vars u).upper_stack =
          (s0.vars u).upper_stack := fun u => (r2.2.1 u).trans (hus u)
      obtain ⟨q1, q2, q3⟩ := ih _ s0 _ hstacks1 hstacks2
        (fun e he => helem e (List.mem_cons_of_mem _ he))
      refine ⟨?_, by rw [q2, r3], by rw [q3, r4]⟩
      rw [q1, r1]
      have hv := prop_value_le_ub co slack (s0.vars v).upper_bound hneg hs
      have hterm : 0 ≤ (s0.vars v).upper_bound -
          max (prop_value co (prop_diff co slack (s0.vars v).upper_bound) - 1)
            (s0.vars v).lower_bound := by
        have : max (prop_value co (prop_diff co slack (s0.vars v).upper_bound) - 1)
            (s0.vars v).lower_bound ≤ (s0.vars v).upper_bound := by
          apply max_le
          · omega
          · exact hlu
        omega
      rw [hlb, hub]
      simp only [intRange_length]
      congr 1
      push_cast [Int.toNat_of_nonneg hterm]
      ring
    · rw [if_pos hpos, if_pos hpos]
      obtain ⟨r1, r2, r3, r4⟩ := wlitsRange_spec true co v
        (intRange (s.vars v).lower_bound
          (min (prop_value co (prop_diff co slack (s.vars v).lower_bound) + 1)
            (s.vars v).upper_bound)) s acc
      have hstacks1 : ∀ u, ((wlitsRange true co v
          (intRange (s.vars v).lower_bound
            (min (prop_value co (prop_diff co slack (s.vars v).lower_bound) + 1)
              (s.vars v).upper_bound)) s acc).2.vars u).lower_stack =
          (s0.vars u).lower_stack := fun u => (r2.1 u).trans (hls u)
      have hstacks2 : ∀ u, ((wlitsRange true co v
          (intRange (s.vars v).lower_bound
            (min (prop_value co (prop_diff co slack (s.vars v).lower_bound) + 1)
              (s.vars v).upper_bound)) s acc).2.vars u).upper_stack =
          (s0.vars u).upper_stack := fun u => (r2.2.1 u).trans (hus u)
      obtain ⟨q1, q2, q3⟩ := ih _ s0 _ hstacks1 hstacks2
        (fun e he => helem e (List.mem_cons_of_mem _ he))
      refine ⟨?_, by rw [q2, r3], by rw [q3, r4]⟩
      rw [q1, r1]
      have hv := prop_value_ge_lb co slack (s0.vars v).lower_bound hpos hs
      have hterm : 0 ≤ min (prop_value co (prop_diff co slack (s0.vars v).lower_bound) + 1)
          (s0.vars v).upper_bound - (s0.vars v).lower_bound := by
        have : (s0.vars v).lower_bound ≤
            min (prop_value co (prop_diff co slack (s0.vars v).lower_bound) + 1)
              (s0.vars v).upper_bound := by
          apply le_min
          · omega
          · exact hlu
        omega
      rw [hlb, hub]
      simp only [intRange_length]
      congr 1
      push_cast [Int.toNat_of_nonneg hterm]
      ring

theorem remove_constraint_log (s : State) (cid : Nat) :
    (s.remove_constraint cid).weights = s.weights ∧
    (s.remove_constraint cid).cstate_keys = s.cstate_keys.erase cid := by
  unfold State.remove_constraint
  dsimp only
  have aux : ∀ (l : List (Int × String)) (s : State),
      ((l.foldl (fun s el =>
        { s with v2cs := updV2cs s.v2cs el.2 ((s.v2cs el.2).erase (el.1, cid)) }) s)).weights =
        s.weights ∧
      ((l.foldl (fun s el =>
        { s with v2cs := updV2cs s.v2cs el.2 ((s.v2cs el.2).erase (el.1, cid)) }) s)).cstate_keys =
        s.cstate_keys := by
    intro l
    induction l with
    | nil => intro s; exact ⟨rfl, rfl⟩
    | cons e r ih =>
      intro s
      rw [List.foldl_cons]
      exact ih _
  obtain ⟨ha, hb⟩ := aux (s.cstates cid).constraint.elements s
  split
  · exact ⟨ha, by rw [hb]⟩
  · exact ⟨ha, by rw [hb]⟩

/-- C6: `translate` on a non-tagged sum constraint that is neither
satisfied (`upper_bound ≤ rhs`) nor deactivated emits exactly one host
weight constraint, with bound `slack = rhs − lower_bound`, and removes
the constraint state, if and only if the estimate is below the budget
1000; and the number of weight literals actually built equals the value
computed by `_estimate`. -/
theorem c6_translate (s : State) (ass : Assign) (cid : Nat)
    (htag : (s.cstates cid).constraint.is_minimize = false)
    (hfalse : ass.is_false (s.cstates cid).literal = false)
    (hub : (s.cstates cid).constraint.rhs < (s.cstates cid).upper_bound)
    (hslack : 0 ≤ (s.cstates cid).constraint.rhs - (s.cstates cid).lower_bound)
    (helem : ∀ el ∈ (s.cstates cid).constraint.elements, el.1 ≠ 0 ∧
       (s.vars el.2).lower_bound ≤ (s.vars el.2).upper_bound) :
    ((s.translate ass cid).2.1 = true ↔ s.estimate cid < 1000) ∧
    (s.estimate cid < 1000 →
      ∃ lit wl, (s.translate ass cid).2.2.weights = s.weights ++
          [(lit, wl, (s.cstates cid).constraint.rhs - (s.cstates cid).lower_bound)] ∧
        (wl.length : Int) = s.estimate cid ∧
        (s.translate ass cid).2.2.cstate_keys = s.cstate_keys.erase cid) ∧
    (¬ s.estimate cid < 1000 → s.translate ass cid = (true, false, s)) := by
  have hrhs : (s.cstates cid).constraint.rhs_in s =
      some (s.cstates cid).constraint.rhs := by
    unfold Constraint.rhs_in
    rw [if_neg (by simp [htag])]
  have hest : s.estimate cid = estimateLoop s
      ((s.cstates cid).constraint.rhs - (s.cstates cid).lower_bound)
      (s.cstates cid).constraint.elements 0 := by
    unfold State.estimate
    dsimp only
    rw [hrhs]
    rfl
  obtain ⟨hcount, hweights, hkeys⟩ := wlits_count
    ((s.cstates cid).constraint.rhs - (s.cstates cid).lower_bound) hslack
    (s.cstates cid).constraint.elements s s [] (fun _ => rfl) (fun _ => rfl) helem
  unfold State.translate
  dsimp only
  rw [if_neg (show ¬ ((s.cstates cid).constraint.tagged = true) by
    simp [Constraint.tagged, htag])]
  rw [hrhs]
  simp only [Option.getD_some]
  have hcond : ¬ ((ass.is_false (s.cstates cid).literal ||
      decide ((s.cstates cid).upper_bound ≤ (s.cstates cid).constraint.rhs)) = true) := by
    simp only [Bool.or_eq_true, decide_eq_true_eq, not_or, not_le]
    exact ⟨by simp [hfalse], hub⟩
  rw [if_neg hcond]
  by_cases hlt : s.estimate cid < 1000
  · rw [if_pos hlt]
    refine ⟨by simp [hlt], fun _ => ?_, fun hno => absurd hlt hno⟩
    split
    · refine ⟨(s.cstates cid).literal,
        (wlitsLoop ((s.cstates cid).constraint.rhs - (s.cstates cid).lower_bound)
          (s.cstates cid).constraint.elements s []).1, ?_, ?_, ?_⟩
      · rw [(remove_constraint_log _ cid).1]
        dsimp only
        rw [hweights]
      · rw [hcount]
        simp only [List.length_nil, Nat.cast_zero]
        exact hest.symm
      · rw [(remove_constraint_log _ cid).2]
        dsimp only
        rw [hkeys]
    · refine ⟨(wlitsLoop ((s.cstates cid).constraint.rhs - (s.cstates cid).lower_bound)
          (s.cstates cid).constraint.elements s []).2.next_lit,
        (wlitsLoop ((s.cstates cid).constraint.rhs - (s.cstates cid).lower_bound)
          (s.cstates cid).constraint.elements s []).1, ?_, ?_, ?_⟩
      · rw [(remove_constraint_log _ cid).1]
        dsimp only [State.add_clause]
        rw [hweights]
      · rw [hcount]
        simp only [List.length_nil, Nat.cast_zero]
        exact hest.symm
      · rw [(remove_constraint_log _ cid).2]
        dsimp only [State.add_clause]
        rw [hkeys]
  · rw [if_neg hlt]
    exact ⟨by simp [hlt], fun hyes => absurd hyes hlt, fun _ => rfl⟩

/-- Witness for C6 at the concrete one-constraint state: the constraint
is removed (`estimate = 3 < 1000`) and exactly one weight constraint
with bound 2 and three weight literals is emitted. -/
theorem c6_witness :
    ((w6state.cstates 0).constraint.is_minimize = false ∧
     w6assign.is_false (w6state.cstates 0).literal = false ∧
     (w6state.cstates 0).constraint.rhs < (w6state.cstates 0).upper_bound ∧
     0 ≤ (w6state.cstates 0).constraint.rhs - (w6state.cstates 0).lower_bound) ∧
    ((w6state.translate w6assign 0).2.1 = true ↔ w6state.estimate 0 < 1000) ∧
    w6state.estimate 0 = 3 :=
  ⟨⟨by decide, by decide, by decide, by decide⟩,
   (c6_translate w6state w6assign 0 (by decide) (by decide) (by decide) (by decide)
      (by decide)).1,
   by decide⟩

/-! ## C2: conflict detection in `check` -/

theorem mark_inactive_vars (s : State) (cid : Nat) :
    (s.mark_inactive cid).vars = s.vars := by
  unfold State.mark_inactive
  dsimp only
  split
  · rfl
  · rfl

theorem mark_inactive_next_lit (s : State) (cid : Nat) :
    (s.mark_inactive cid).next_lit = s.next_lit := by
  unfold State.mark_inactive
  dsimp only
  split
  · rfl
  · rfl

theorem mark_inactive_clauses (s : State) (cid : Nat) :
    (s.mark_inactive cid).clauses = s.clauses := by
  unfold State.mark_inactive
  dsimp only
  split
  · rfl
  · rfl

theorem mark_inactive_constraint (s : State) (cid i : Nat) :
    ((s.mark_inactive cid).cstates i).constraint = (s.cstates i).constraint := by
  unfold State.mark_inactive
  dsimp only
  split
  · dsimp only [updCs]
    by_cases hi : i = cid
    · rw [if_pos hi, hi]
    · rw [if_neg hi]
  · rfl

theorem get_literal_frozen (s : State) (v : String) (value : Int)
    (h : hasOrderLit s v value) :
    (s.get_literal v value).2 = s := by
  unfold State.get_literal
  dsimp only
  split
  · rfl
  · split
    · rfl
    · split
      · rfl
      · rename_i h1 h2 h3
        exfalso
        rcases h with hc | hc | hc
        · exact h1 hc
        · exact h2 hc
        · exact h3 hc

theorem get_literal_fst_congr (s t : State) (hv : t.vars = s.vars)
    (hn : t.next_lit = s.next_lit) (v : String) (value : Int) :
    (t.get_literal v value).1 = (s.get_literal v value).1 := by
  unfold State.get_literal
  dsimp only
  rw [hv, hn]
  repeat' split
  all_goals rfl

theorem reason_lit_congr (s t : State) (hv : t.vars = s.vars)
    (hn : t.next_lit = s.next_lit) :
    reason_lit t = reason_lit s := by
  funext el
  unfold reason_lit
  rw [hv]
  simp only [get_literal_fst_congr s t hv hn]

theorem hasOrderLit_congr (s t : State) (hv : t.vars = s.vars) (v : String)
    (value : Int) :
    hasOrderLit t v value ↔ hasOrderLit s v value := by
  unfold hasOrderLit
  rw [hv]

theorem reasonLoop_frozen (ass : Assign) (elements : List (Int × String)) :
    ∀ (s : State) (n : Nat) (acc : List Int),
      (∀ el ∈ elements, hasOrderLit s el.2
        (if el.1 > 0 then (s.vars el.2).lower_bound - 1 else (s.vars el.2).upper_bound)) →
      (reasonLoop ass elements s n acc).2.1 = acc ++ elements.map (reason_lit s) ∧
      (reasonLoop ass elements s n acc).2.2 = s := by
  induction elements with
  | nil =>
    intro s n acc _
    unfold reasonLoop
    simp
  | cons el rest ih =>
    intro s n acc h
    obtain ⟨co, v⟩ := el
    have hel := h (co, v) (List.mem_cons_self _ _)
    dsimp only at hel
    have hrest : ∀ el ∈ rest, hasOrderLit s el.2
        (if el.1 > 0 then (s.vars el.2).lower_bound - 1 else (s.vars el.2).upper_bound) :=
      fun el hm => h el (List.mem_cons_of_mem _ hm)
    unfold reasonLoop
    dsimp only
    by_cases hco : co > 0
    · rw [if_pos hco] at hel ⊢
      rw [get_literal_frozen s v _ hel]
      have hlit : (s.get_literal v ((s.vars v).lower_bound - 1)).1 = reason_lit s (co, v) := by
        unfold reason_lit
        rw [if_pos hco]
      refine ⟨?_, (ih s _ _ hrest).2⟩
      rw [(ih s _ _ hrest).1, hlit]
      simp
    · rw [if_neg hco] at hel ⊢
      rw [get_literal_frozen s v _ hel]
      have hlit : -(s.get_literal v (s.vars v).upper_bound).1 = reason_lit s (co, v) := by
        unfold reason_lit
        rw [if_neg hco]
      refine ⟨?_, (ih s _ _ hrest).2⟩
      rw [(ih s _ _ hrest).1, hlit]
      simp

theorem generate_reason_frozen (s : State) (ass : Assign) (cid : Nat)
    (hwit : ∀ el ∈ (s.cstates cid).constraint.elements, hasOrderLit s el.2
      (if el.1 > 0 then (s.vars el.2).lower_bound - 1 else (s.vars el.2).upper_bound)) :
    (s.generate_reason ass cid).2.1 =
      (s.cstates cid).constraint.elements.map (reason_lit s) ++
        [-(s.cstates cid).literal] ∧
    (s.generate_reason ass cid).2.2 = s := by
  unfold State.generate_reason
  dsimp only
  have h := reasonLoop_frozen ass (s.cstates cid).constraint.elements s
    (if (s.cstates cid).constraint.tagged then 1 else 0) [] hwit
  exact ⟨by rw [h.1]; simp, h.2⟩

theorem is_false_of_is_true (ass : Assign) (l : Int) (h : ass.is_true l = true) :
    ass.is_false l = false := by
  unfold Assign.is_true at h
  unfold Assign.is_false
  cases hv : ass.val l with
  | none => rw [hv] at h; simp at h
  | some b =>
    rw [hv] at h
    simp only [Option.some.injEq, beq_iff_eq] at h
    rw [h]
    rfl

theorem cs_propagate_conflict (s t : State) (ass : Assign) (cid : Nat)
    (hv : t.vars = s.vars) (hn : t.next_lit = s.next_lit)
    (hc : t.cstates = s.cstates) (hcl : t.clauses = s.clauses)
    (hmin : (s.cstates cid).constraint.is_minimize = false)
    (hub : (s.cstates cid).constraint.rhs < (s.cstates cid).upper_bound)
    (hslack : (s.cstates cid).constraint.rhs - (s.cstates cid).lower_bound < 0)
    (hwit : ∀ el ∈ (s.cstates cid).constraint.elements, hasOrderLit s el.2
      (if el.1 > 0 then (s.vars el.2).lower_bound - 1 else (s.vars el.2).upper_bound)) :
    (t.cs_propagate ass cid).1 =
      !(((s.cstates cid).constraint.elements.map (reason_lit s) ++
          [-(s.cstates cid).literal]).all (fun l => ass.is_false l)) ∧
    (t.cs_propagate ass cid).2.clauses = s.clauses ++
      [(s.cstates cid).constraint.elements.map (reason_lit s) ++
        [-(s.cstates cid).literal]] := by
  have hv1 : (t.mark_inactive cid).vars = s.vars := by rw [mark_inactive_vars, hv]
  have hn1 : (t.mark_inactive cid).next_lit = s.next_lit := by
    rw [mark_inactive_next_lit, hn]
  have hcon1 : ∀ i, ((t.mark_inactive cid).cstates i).constraint =
      (s.cstates i).constraint := by
    intro i
    rw [mark_inactive_constraint, hc]
  have hcl1 : (t.mark_inactive cid).clauses = s.clauses := by
    rw [mark_inactive_clauses, hcl]
  have hw1 : ∀ el ∈ ((t.mark_inactive cid).cstates cid).constraint.elements,
      hasOrderLit (t.mark_inactive cid) el.2
        (if el.1 > 0 then ((t.mark_inactive cid).vars el.2).lower_bound - 1
         else ((t.mark_inactive cid).vars el.2).upper_bound) := by
    simp only [hcon1, hv1]
    intro el hm
    exact (hasOrderLit_congr s _ hv1 el.2 _).mpr (hwit el hm)
  have hg := generate_reason_frozen (t.mark_inactive cid) ass cid hw1
  have hclause : ((t.mark_inactive cid).cstates cid).constraint.elements.map
        (reason_lit (t.mark_inactive cid)) ++
        [-((t.mark_inactive cid).cstates cid).literal] =
      (s.cstates cid).constraint.elements.map (reason_lit s) ++
        [-(s.cstates cid).literal] := by
    unfold ConstraintState.literal
    rw [reason_lit_congr s _ hv1 hn1, hcon1 cid]
  have hrhs : (t.cstates cid).constraint.rhs_in t =
      some (t.cstates cid).constraint.rhs := by
    unfold Constraint.rhs_in
    rw [if_neg (by rw [hc]; simp [hmin])]
  have key : t.cs_propagate ass cid =
      ((t.mark_inactive cid).generate_reason ass cid).2.2.add_clause ass
        ((t.mark_inactive cid).generate_reason ass cid).2.1 := by
    unfold State.cs_propagate
    dsimp only
    split
    · rename_i heq
      rw [hrhs] at heq
      cases heq
    · rename_i rhs heq
      rw [hrhs] at heq
      injection heq with hrq
      subst hrq
      rw [hc]
      rw [if_neg (not_le.mpr hub), if_pos hslack]
  rw [key, hg.1, hg.2, hclause]
  unfold State.add_clause
  dsimp only
  exact ⟨by trivial, by rw [hcl1]⟩

theorem todoLoop_head_conflict (s t : State) (ass : Assign) (cid : Nat)
    (rest : List Nat)
    (hv : t.vars = s.vars) (hn : t.next_lit = s.next_lit)
    (hc : t.cstates = s.cstates) (hcl : t.clauses = s.clauses)
    (hmin : (s.cstates cid).constraint.is_minimize = false)
    (hub : (s.cstates cid).constraint.rhs < (s.cstates cid).upper_bound)
    (hslack : (s.cstates cid).constraint.rhs - (s.cstates cid).lower_bound < 0)
    (hwit : ∀ el ∈ (s.cstates cid).constraint.elements, hasOrderLit s el.2
      (if el.1 > 0 then (s.vars el.2).lower_bound - 1 else (s.vars el.2).upper_bound))
    (htrue : ass.is_true (s.cstates cid).literal = true)
    (hall : ((s.cstates cid).constraint.elements.map (reason_lit s) ++
        [-(s.cstates cid).literal]).all (fun l => ass.is_false l) = true) :
    (todoLoop ass (cid :: rest) t).1 = false ∧
    (todoLoop ass (cid :: rest) t).2.clauses = s.clauses ++
      [(s.cstates cid).constraint.elements.map (reason_lit s) ++
        [-(s.cstates cid).literal]] := by
  have hcp := cs_propagate_conflict s t ass cid hv hn hc hcl hmin hub hslack hwit
  have h1 : (t.cs_propagate ass cid).1 = false := by
    rw [hcp.1, hall]
    rfl
  unfold todoLoop
  dsimp only
  rw [hc]
  unfold ConstraintState.literal
  rw [show (s.cstates cid).constraint.literal = (s.cstates cid).literal from rfl]
  rw [is_false_of_is_true ass _ htrue]
  simp only [Bool.not_false, if_true]
  rw [h1]
  simp only [Bool.false_eq_true, if_false]
  exact ⟨by trivial, hcp.2⟩

/-- C2 (corrected): for a sum constraint at the head of the todo queue
whose activation literal is TRUE (not merely non-false) and whose
cached lower bound exceeds `rhs`, `check` returns false after adding
the reason clause made of one false bound literal per term plus the
negated activation literal, and that clause is false under the current
assignment.  (The original claim asked this already when the activation
literal is merely not false; `c2_counterexample` refutes that: with the
activation literal unassigned the clause is not conflicting, the host
accepts it and `check` returns true.) -/
theorem c2_check_conflict (s : State) (ass : Assign) (cid : Nat) (rest : List Nat)
    (fuel : Nat) (hfuel : 1 ≤ fuel)
    (hdl : ass.decision_level = (s.levels.headD default).level)
    (hfacts : s.facts_integrated = num_facts s)
    (hud : s.udiff = []) (hld : s.ldiff = [])
    (htodo : s.todo = cid :: rest)
    (hmin : (s.cstates cid).constraint.is_minimize = false)
    (htrue : ass.is_true (s.cstates cid).literal = true)
    (hneg : ass.is_false (-(s.cstates cid).literal) = true)
    (hub : (s.cstates cid).constraint.rhs < (s.cstates cid).upper_bound)
    (hslack : (s.cstates cid).constraint.rhs - (s.cstates cid).lower_bound < 0)
    (hwit : ∀ el ∈ (s.cstates cid).constraint.elements, hasOrderLit s el.2
      (if el.1 > 0 then (s.vars el.2).lower_bound - 1 else (s.vars el.2).upper_bound))
    (hfl : ∀ el ∈ (s.cstates cid).constraint.elements,
      ass.is_false (reason_lit s el) = true) :
    (s.check ass fuel).1 = false ∧
    (s.check ass fuel).2.clauses = s.clauses ++
      [(s.cstates cid).constraint.elements.map (reason_lit s) ++
        [-(s.cstates cid).literal]] ∧
    ∀ l ∈ (s.cstates cid).constraint.elements.map (reason_lit s) ++
        [-(s.cstates cid).literal], ass.is_false l = true := by
  have hallmem : ∀ l ∈ (s.cstates cid).constraint.elements.map (reason_lit s) ++
      [-(s.cstates cid).literal], ass.is_false l = true := by
    intro l hl
    rcases List.mem_append.mp hl with hm | hm
    · obtain ⟨el, hel, rfl⟩ := List.mem_map.mp hm
      exact hfl el hel
    · rw [List.mem_singleton.mp hm]
      exact hneg
  have hall : ((s.cstates cid).constraint.elements.map (reason_lit s) ++
      [-(s.cstates cid).literal]).all (fun l => ass.is_false l) = true :=
    List.all_eq_true.mpr hallmem
  obtain ⟨f, rfl⟩ : ∃ f, fuel = Nat.succ f := ⟨fuel - 1, by omega⟩
  have htl := todoLoop_head_conflict s
    { s with udiff := [], ldiff := [], todo := [] } ass cid rest rfl rfl rfl rfl
    hmin hub hslack hwit htrue hall
  have hnot : ¬(ass.decision_level ≠ (s.levels.headD default).level ∧
      (s.levels.headD default).level ≥ s.minimize_level) := fun hcon => hcon.1 hdl
  unfold State.check
  dsimp only
  rw [if_neg hnot]
  unfold checkLoop
  dsimp only
  rw [if_neg (show ¬(s.facts_integrated ≠ num_facts s) from fun h => h hfacts)]
  dsimp only
  simp only [Bool.not_true, Bool.false_eq_true, if_false]
  rw [hud]
  simp only [diffLoop]
  rw [hld]
  simp only [diffLoop]
  rw [htodo]
  rw [htl.1]
  simp only [Bool.not_false, if_true]
  exact ⟨by trivial, htl.2, hallmem⟩

/-- Counterexample to C2 as stated: the empty-sum constraint `0 ≤ -1`
is enqueued with negative slack and its activation literal 5 is not
false (it is unassigned), yet `check` returns true — the reason clause
`[-5]` it hands to the host is not conflicting. -/
theorem c2_counterexample :
    w2assign.is_false (w2state.cstates 0).literal = false ∧
    (w2state.cstates 0).constraint.rhs - (w2state.cstates 0).lower_bound < 0 ∧
    w2state.todo = [0] ∧
    (w2state.check w2assign 2).1 = true := by decide

/-- Witness for C2 at a concrete state: the same conflicting constraint
with its activation literal true makes `check` report a conflict with
the false clause `[-5]`. -/
theorem c2_witness :
    (w2wassign.is_true (w2wstate.cstates 0).literal = true ∧
     (w2wstate.cstates 0).constraint.rhs - (w2wstate.cstates 0).lower_bound < 0 ∧
     w2wstate.todo = [0]) ∧
    (w2wstate.check w2wassign 2).1 = false ∧
    (w2wstate.check w2wassign 2).2.clauses = w2wstate.clauses ++
      [(w2wstate.cstates 0).constraint.elements.map (reason_lit w2wstate) ++
        [-(w2wstate.cstates 0).literal]] ∧
    ∀ l ∈ (w2wstate.cstates 0).constraint.elements.map (reason_lit w2wstate) ++
        [-(w2wstate.cstates 0).literal], w2wassign.is_false l = true :=
  ⟨⟨by decide, by decide, by decide⟩,
   c2_check_conflict w2wstate w2wassign 0 [] 2 (by decide) (by decide) (by decide)
     (by decide) (by decide) (by decide) (by decide) (by decide) (by decide)
     (by decide) (by decide) (by decide) (by decide)⟩

end Csp
